/-
Verification of the TIM2 image decoder (tim2-rs).

This file gives a shallow embedding of the decoder's core:
src/lib/src/frame.rs and src/lib/src/image.rs, together with models of the
helper modules common.rs, error.rs and pixel.rs (those three files are not
part of the staged sources; their definitions are modelled from the design
document, see the doc comments on get_slice, Error and Pixel).

Conventions of the embedding:
- A byte buffer is a List Nat; every byte extracted from a buffer is
  reduced modulo 256 at the point where Rust reads it as a u8 (get_slice).
- Machine integers are Nat with explicit reductions modulo 2 ^ w where
  Rust's fixed width matters (the one place is the usize subtraction
  header_size - 48, which wraps on underflow in release builds; in debug
  builds it aborts - in both cases no Error value is returned, which the
  embedding folds into the panic outcome).
- Fallible Rust code returns Result<T, Error>; Rust code that can abort
  (slice indexing out of bounds, integer division by zero, step_by(0),
  underflow) is embedded with the three-valued outcome type Res: ok, err,
  or panic.
-/
import Mathlib

set_option maxRecDepth 4000

/-- Modelled from the spec: error.rs is not in src/. Section 7 lists the
error kinds of the decoder; the Io kind exists only for the load(path)
wrapper, which does file system work and is outside this embedding. -/
inductive Error where
  | InvalidIdentifier (m : Nat)
  | InvalidBppFormat (n : Nat)
  | InvalidBpp (n : Nat)
  | TrueColorAndPaletteFound
  | InvalidColorSampleSize (n : Nat)
  | UnexpectedEndOfInput
deriving DecidableEq, Repr

/-- Outcome of running a piece of decoder code: a value, a returned Error,
or a Rust abort (panic).  Slice indexing out of range, division by zero,
step_by(0) and usize underflow in debug builds all abort rather than
return an Error; the embedding keeps that distinction explicit. -/
inductive Res (α : Type) where
  | ok (a : α)
  | err (e : Error)
  | panic
deriving DecidableEq, Repr

def Res.map {α β : Type} (f : α → β) : Res α → Res β
  | .ok a => .ok (f a)
  | .err e => .err e
  | .panic => .panic

def Res.bind {α β : Type} : Res α → (α → Res β) → Res β
  | .ok a, f => f a
  | .err e, _ => .err e
  | .panic, _ => .panic

@[simp] theorem Res.map_ok {α β : Type} (f : α → β) (a : α) : Res.map f (.ok a) = .ok (f a) := rfl
@[simp] theorem Res.map_err {α β : Type} (f : α → β) (e : Error) : Res.map f (.err e) = (.err e : Res β) := rfl
@[simp] theorem Res.map_panic {α β : Type} (f : α → β) : Res.map f .panic = (.panic : Res β) := rfl
@[simp] theorem Res.bind_ok {α β : Type} (a : α) (f : α → Res β) : Res.bind (.ok a) f = f a := rfl
@[simp] theorem Res.bind_err {α β : Type} (e : Error) (f : α → Res β) : Res.bind (.err e) f = .err e := rfl
@[simp] theorem Res.bind_panic {α β : Type} (f : α → Res β) : Res.bind .panic f = .panic := rfl

/-- Modelled from the spec: pixel.rs is not in src/. Section 3: a Pixel is
four 8-bit channels r, g, b, a; equality is component-wise (Rust derives
PartialEq). -/
structure Pixel where
  r : Nat
  g : Nat
  b : Nat
  a : Nat
deriving DecidableEq, Repr

/-- Rust Pixel::default() zero-initializes every channel; the unswizzle
routine fills its destination with this value. -/
instance : Inhabited Pixel := ⟨⟨0, 0, 0, 0⟩⟩

/-- Modelled from the spec: 5-bit to 8-bit channel expansion used by the
ABGR1555 decode, x << 3 | x >> 2 (section 4.2). -/
def expand5 (x : Nat) : Nat := x <<< 3 ||| x >>> 2

/-- Modelled from the spec: pixel.rs is not in src/. Pixel::from_buf
decodes one color sample (section 4.2): 2 bytes are little-endian
ABGR1555 (alpha bit 0 -> 0, 1 -> 255), 3 bytes are RGB888 with alpha 255,
4 bytes are RGBA8888; any other sample size is the error
InvalidColorSampleSize(size).  Callers always pass bytes already reduced
mod 256 (they come from get_slice). -/
def Pixel.from_buf : List Nat → Res Pixel
  | [b0, b1] =>
      let v := b0 % 256 + 256 * (b1 % 256)
      .ok { r := expand5 (v &&& 0x1F)
            g := expand5 ((v >>> 5) &&& 0x1F)
            b := expand5 ((v >>> 10) &&& 0x1F)
            a := if v >>> 15 ≠ 0 then 255 else 0 }
  | [r, g, b] => .ok { r := r % 256, g := g % 256, b := b % 256, a := 255 }
  | [r, g, b, a] => .ok { r := r % 256, g := g % 256, b := b % 256, a := a % 256 }
  | l => .err (.InvalidColorSampleSize l.length)

/-- Modelled from the spec: common.rs is not in src/. Section 4.1: the byte
reader returns the next size bytes and advances the cursor.  The Rust
signature used throughout frame.rs and image.rs returns a bare slice (no
Result), so a read past the end of the buffer is a slice-indexing abort,
not an Error; the embedding returns none for that case and the callers
turn it into Res.panic.  The returned bytes are u8 values, hence the
reduction mod 256. -/
def get_slice (buffer : List Nat) (offset size : Nat) : Option (List Nat × Nat) :=
  if offset + size ≤ buffer.length then
    some (((buffer.drop offset).take size).map (· % 256), offset + size)
  else
    none

/-- Little-endian u16 of the first two bytes of a slice (byteorder
LittleEndian::read_u16). -/
def read_u16_le (l : List Nat) : Nat := l.getD 0 0 + 256 * l.getD 1 0

/-- Little-endian u32 of the first four bytes of a slice. -/
def read_u32_le (l : List Nat) : Nat :=
  l.getD 0 0 + 256 * l.getD 1 0 + 65536 * l.getD 2 0 + 16777216 * l.getD 3 0

/-- Big-endian u32 of the first four bytes of a slice (byteorder
BigEndian::read_u32), used only for the container magic. -/
def read_u32_be (l : List Nat) : Nat :=
  16777216 * l.getD 0 0 + 65536 * l.getD 1 0 + 256 * l.getD 2 0 + l.getD 3 0

/-- Little-endian u64 of the first eight bytes of a slice. -/
def read_u64_le (l : List Nat) : Nat :=
  l.getD 0 0 + 256 * l.getD 1 0 + 65536 * l.getD 2 0 + 16777216 * l.getD 3 0 +
  4294967296 * l.getD 4 0 + 1099511627776 * l.getD 5 0 +
  281474976710656 * l.getD 6 0 + 72057594037927936 * l.getD 7 0

example : Pixel.from_buf [0xFF, 0xFF] = .ok ⟨255, 255, 255, 255⟩ := by decide
example : Pixel.from_buf [0xFF, 0x7F] = .ok ⟨255, 255, 255, 0⟩ := by decide
example : Pixel.from_buf [1, 2, 3] = .ok ⟨1, 2, 3, 255⟩ := by decide
example : Pixel.from_buf [9] = .err (.InvalidColorSampleSize 1) := by decide

/- ===== frame.rs ===== -/

def SWIZZLE_WIDTH : Nat := 16

def SWIZZLE_HEIGHT : Nat := 8

/-- Per-frame header, frame.rs lines 27-45.  Field widths in the wire
format: u32 total_size, u32 palette_size, u32 image_size, u16 header_size,
u16 color_entry_count, u8 paletted, u8 mipmap_count, u8 clut_format,
u8 bpp code (normalized to a bit depth by find_bpp), u16 width,
u16 height, u64 gs_tex_0, u64 gs_tex_1, u32 gs_regs, u32 gs_tex_clut. -/
structure Frame.Header where
  total_size : Nat
  palette_size : Nat
  image_size : Nat
  header_size : Nat
  color_entry_count : Nat
  paletted : Nat
  mipmap_count : Nat
  clut_format : Nat
  bpp : Nat
  width : Nat
  height : Nat
  gs_regs : Nat
  gs_tex_clut : Nat
  gs_tex_0 : Nat
  gs_tex_1 : Nat
  user_data : List Nat
deriving DecidableEq, Repr

/-- Header::find_bpp, frame.rs lines 82-91. -/
def Frame.Header.find_bpp : Nat → Res Nat
  | 1 => .ok 16
  | 2 => .ok 24
  | 3 => .ok 32
  | 4 => .ok 4
  | 5 => .ok 8
  | n => .err (.InvalidBppFormat n)

/-- Consecutive get_slice reads: one slice per requested size, each read
advancing the cursor, failing (like get_slice) as soon as one read passes
the end of the buffer.  Header::read performs exactly such a sequence of
fifteen reads. -/
def get_slices (buffer : List Nat) (offset : Nat) : List Nat → Option (List (List Nat) × Nat)
  | [] => some ([], offset)
  | sz :: rest =>
      match get_slice buffer offset sz with
      | none => none
      | some (s, o2) =>
          match get_slices buffer o2 rest with
          | none => none
          | some (ss, o3) => some (s :: ss, o3)

/-- User-data step of Header::read, frame.rs lines 70-73: the user-data
length is the usize subtraction header_size - 48; on underflow a release
build wraps modulo 2 ^ 64 and a debug build aborts - the embedding wraps,
and the resulting enormous get_slice turns into the same panic outcome
for every buffer shorter than 2 ^ 64 bytes. -/
def Frame.Header.attachUserData (buffer : List Nat) (o15 : Nat) (result : Frame.Header) :
    Res (Frame.Header × Nat) :=
  let user_data_size := (result.header_size + 2 ^ 64 - 48) % 2 ^ 64
  if user_data_size > 0 then
    match get_slice buffer o15 user_data_size with
    | none => .panic
    | some (ud, o16) => .ok ({ result with user_data := ud }, o16)
  else
    .ok (result, o15)

/-- Field-reading part of Header::read, frame.rs lines 51-73: the fifteen
get_slice reads in source order - the nine reads up to and including the
bpp code byte (sizes 4, 4, 4, 2, 2, 1, 1, 1, 1), then find_bpp (the ?
operator in the record construction returns early, before the remaining
reads), then the six reads for width, height and the four register words
(sizes 2, 2, 8, 8, 4, 4), then the user-data read (attachUserData above).
The slices are numbered in read order: slice 0 is total_size, 1
palette_size, 2 image_size, 3 header_size, 4 color_entry_count, 5
paletted, 6 mipmap_count, 7 clut_format, 8 the bpp code, and in the
second group 0 is width, 1 height, 2 gs_tex_0, 3 gs_tex_1, 4 gs_regs, 5
gs_tex_clut.  The final palette/bpp check of lines 75-79 is in
Frame.Header.read below. -/
def Frame.Header.readFields (buffer : List Nat) (offset : Nat) : Res (Frame.Header × Nat) :=
  match get_slices buffer offset [4, 4, 4, 2, 2, 1, 1, 1, 1] with
  | none => .panic
  | some (ss, o9) =>
    match Frame.Header.find_bpp ((ss.getD 8 []).getD 0 0) with
    | .err e => .err e
    | .panic => .panic
    | .ok bpp =>
      match get_slices buffer o9 [2, 2, 8, 8, 4, 4] with
      | none => .panic
      | some (ss2, o15) =>
        Frame.Header.attachUserData buffer o15
          { total_size := read_u32_le (ss.getD 0 [])
            palette_size := read_u32_le (ss.getD 1 [])
            image_size := read_u32_le (ss.getD 2 [])
            header_size := read_u16_le (ss.getD 3 [])
            color_entry_count := read_u16_le (ss.getD 4 [])
            paletted := (ss.getD 5 []).getD 0 0
            mipmap_count := (ss.getD 6 []).getD 0 0
            clut_format := (ss.getD 7 []).getD 0 0
            bpp := bpp
            width := read_u16_le (ss2.getD 0 [])
            height := read_u16_le (ss2.getD 1 [])
            gs_tex_0 := read_u64_le (ss2.getD 2 [])
            gs_tex_1 := read_u64_le (ss2.getD 3 [])
            gs_regs := read_u32_le (ss2.getD 4 [])
            gs_tex_clut := read_u32_le (ss2.getD 5 [])
            user_data := [] }

/-- Header::read, frame.rs lines 48-80: read the fields, then reject a
header that declares both a palette and a true-color depth. -/
def Frame.Header.read (buffer : List Nat) (offset : Nat) : Res (Frame.Header × Nat) :=
  match Frame.Header.readFields buffer offset with
  | .ok (result, o) =>
      if result.palette_size > 0 ∧ result.bpp > 8 then .err .TrueColorAndPaletteFound
      else .ok (result, o)
  | .err e => .err e
  | .panic => .panic

/-- Header::is_linear_palette, frame.rs lines 93-95. -/
def Frame.Header.is_linear_palette (h : Frame.Header) : Bool :=
  h.clut_format &&& 0x80 != 0

/-- Header::color_size, frame.rs lines 97-103. -/
def Frame.Header.color_size (h : Frame.Header) : Nat :=
  if h.bpp > 8 then h.bpp / 8 else (h.clut_format &&& 0x07) + 1

/-- DataKind, frame.rs lines 12-16. -/
inductive DataKind where
  | Indices (v : List Nat)
  | Pixels (v : List Pixel)
deriving DecidableEq, Repr

/-- DataKind::len, frame.rs lines 18-25. -/
def DataKind.len : DataKind → Nat
  | .Indices v => v.length
  | .Pixels v => v.length

/-- One step list of the palette linearization loop nest, frame.rs lines
221-224: part runs over 0..part_count, block over 0..BLOCK_COUNT = 2,
stripe over 0..STRIPE_COUNT = 2, color over 0..COLOR_COUNT = 8, in that
nesting order. -/
def lin_quads (part_count : Nat) : List (Nat × Nat × Nat × Nat) :=
  (List.range part_count).flatMap fun part =>
    (List.range 2).flatMap fun block =>
      (List.range 2).flatMap fun stripe =>
        (List.range 8).map fun color => (part, block, stripe, color)

/-- Frame::linearize_palette, frame.rs lines 212-235.  The source clones
the palette into original, then walks the loop nest writing
palette[i] = original[i1 + i2 + i3 + color] with i incremented once per
innermost iteration; the fold carries (current array, i).  With
part < palette.len / 32 both i and the source offset are below
(palette.len / 32) * 32 <= palette.len, so the Rust index expressions
never abort and the embedding uses plain set/getD. -/
def Frame.linearize_palette (palette : List Pixel) : List Pixel :=
  let part_count := palette.length / 32
  ((lin_quads part_count).foldl
    (fun acc q =>
      let i1 := q.1 * 8 * 2 * 2
      let i2 := q.2.1 * 8
      let i3 := q.2.2.1 * 2 * 8
      (acc.1.set acc.2 (palette.getD (i1 + i2 + i3 + q.2.2.2) default), acc.2 + 1))
    (palette, 0)).1

/-- Loop body of Frame::read_colors, frame.rs lines 202-207: the source
iterates once per element of (0..buffer.len()).step_by(color_size) - that
is (buffer.len() + color_size - 1) / color_size times - reading
color_size bytes through get_slice from a cursor that starts at 0 and
decoding one pixel per iteration (an abort when the read passes the end
of the buffer).  The first argument counts the remaining iterations. -/
def Frame.read_colors_go (buffer : List Nat) (cs : Nat) : Nat → Nat → Res (List Pixel)
  | 0, _ => .ok []
  | n + 1, offset =>
      match get_slice buffer offset cs with
      | none => .panic
      | some (slice, o2) =>
          match Pixel.from_buf slice with
          | .ok p => (Frame.read_colors_go buffer cs n o2).map (p :: ·)
          | .err e => .err e
          | .panic => .panic

/-- Frame::read_colors, frame.rs lines 198-210.  Rust's step_by aborts
when the step is 0, before any iteration runs. -/
def Frame.read_colors (buffer : List Nat) (color_size : Nat) : Res (List Pixel) :=
  if color_size = 0 then .panic
  else Frame.read_colors_go buffer color_size
    ((buffer.length + color_size - 1) / color_size) 0

/-- Cell visiting order of Frame::unswizzle, frame.rs lines 241-244:
(0..height).step_by(SWIZZLE_HEIGHT) enumerates y = 8 * ry for
ry < (height + 7) / 8, (0..width).step_by(SWIZZLE_WIDTH) enumerates
x = 16 * rx for rx < (width + 15) / 16, then tile_y runs y..y+8 and
tile_x runs x..x+16.  The running source cursor i of the source is the
position in this list. -/
def tile_cells (width height : Nat) : List (Nat × Nat) :=
  (List.range ((height + 7) / 8)).flatMap fun ry =>
    (List.range ((width + 15) / 16)).flatMap fun rx =>
      (List.range 8).flatMap fun dy =>
        (List.range 16).map fun dx => (8 * ry + dy, 16 * rx + dx)

/-- Loop body of Frame::unswizzle, frame.rs lines 243-255: for each cell,
if it lies inside the frame then the source element at cursor i (when i is
in range; buffer.get) is written to result[tile_y * width + tile_x] - an
abort when that destination index is outside result - and the cursor
advances once per cell whether or not a write happened. -/
def Frame.unswizzle_go {α : Type} (buffer : List α) (width height : Nat) :
    List (Nat × Nat) → Nat → List α → Res (List α)
  | [], _, res => .ok res
  | (ty, tx) :: rest, i, res =>
      if tx < width ∧ ty < height then
        match buffer[i]? with
        | some v =>
            if ty * width + tx < res.length then
              Frame.unswizzle_go buffer width height rest (i + 1) (res.set (ty * width + tx) v)
            else .panic
        | none => Frame.unswizzle_go buffer width height rest (i + 1) res
      else Frame.unswizzle_go buffer width height rest (i + 1) res

/-- Frame::unswizzle, frame.rs lines 237-260: the destination starts as
buffer.len() copies of the default element. -/
def Frame.unswizzle {α : Type} [Inhabited α] (buffer : List α) (header : Frame.Header) : Res (List α) :=
  Frame.unswizzle_go buffer header.width header.height
    (tile_cells header.width header.height) 0 (List.replicate buffer.length default)

/-- Frame::read_data, frame.rs lines 133-168.  For bpp = 4 each payload
byte is expanded to two indices; note that in the Rust expression
  *index_pair & 0xF0 >> 4
the shift binds tighter than the &, so the first pushed value is
index_pair & (0xF0 >> 4) = index_pair & 0x0F - the low nibble, the same
value as the second push - and the embedding reproduces exactly that. -/
def Frame.read_data (buffer : List Nat) (offset : Nat) (header : Frame.Header) :
    Res (DataKind × Nat) :=
  let pixel_size := header.bpp / 8
  let size := header.image_size
  match get_slice buffer offset size with
  | none => .panic
  | some (slice, o1) =>
    let data := if header.bpp = 4 then
        slice.flatMap (fun index_pair => [index_pair &&& (0xF0 >>> 4), index_pair &&& 0xF])
      else slice
    if header.palette_size > 0 then
      if header.gs_tex_0 &&& (1 <<< 55) ≠ 0 then
        (Frame.unswizzle data header).map (fun raw => (DataKind.Indices raw, o1))
      else .ok (DataKind.Indices data, o1)
    else
      match Frame.read_colors data pixel_size with
      | .ok colors =>
          if header.gs_tex_0 &&& (1 <<< 55) ≠ 0 then
            (Frame.unswizzle colors header).map (fun raw => (DataKind.Pixels raw, o1))
          else .ok (DataKind.Pixels colors, o1)
      | .err e => .err e
      | .panic => .panic

/-- Loop body of Frame::read_palettes, frame.rs lines 182-193: the i-th
palette is decoded from slice[size * i .. size * i + size] (a Rust range
index, an abort when it reaches past the slice), then linearized when the
header asks for it. -/
def Frame.palettes_go (slice : List Nat) (size : Nat) (header : Frame.Header) :
    List Nat → Res (List (List Pixel))
  | [] => .ok []
  | i :: rest =>
      if size * i + size ≤ slice.length then
        let data := (slice.drop (size * i)).take size
        match Frame.read_colors data header.color_size with
        | .ok palette =>
            let palette := if ¬ header.is_linear_palette ∧ header.bpp = 8 then
                Frame.linearize_palette palette
              else palette
            (Frame.palettes_go slice size header rest).map (palette :: ·)
        | .err e => .err e
        | .panic => .panic
      else .panic

/-- Frame::read_palettes, frame.rs lines 170-196.  The palette byte count
is consumed whole; the per-palette byte length is
color_entry_count * color_size and the palette count is the floor
quotient palette_size / size (a division-by-zero abort when size = 0). -/
def Frame.read_palettes (buffer : List Nat) (offset : Nat) (header : Frame.Header) :
    Res (List (List Pixel) × Nat) :=
  if header.palette_size = 0 then .ok ([], offset)
  else
    let total_size := header.palette_size
    match get_slice buffer offset total_size with
    | none => .panic
    | some (slice, o1) =>
      let size := header.color_entry_count * header.color_size
      if size = 0 then .panic
      else
        let count := total_size / size
        (Frame.palettes_go slice size header (List.range count)).map (fun pals => (pals, o1))

/-- Frame, frame.rs lines 117-122. -/
structure Frame where
  header : Frame.Header
  data : DataKind
  palettes : List (List Pixel)
deriving DecidableEq, Repr

/-- Frame::read, frame.rs lines 125-131. -/
def Frame.read (buffer : List Nat) (offset : Nat) : Res (Frame × Nat) :=
  match Frame.Header.read buffer offset with
  | .ok (header, o1) =>
    match Frame.read_data buffer o1 header with
    | .ok (data, o2) =>
      match Frame.read_palettes buffer o2 header with
      | .ok (palettes, o3) => .ok (⟨header, data, palettes⟩, o3)
      | .err e => .err e
      | .panic => .panic
    | .err e => .err e
    | .panic => .panic
  | .err e => .err e
  | .panic => .panic

/-- Frame::width, frame.rs lines 266-268. -/
def Frame.width (frame : Frame) : Nat := frame.header.width

/-- Frame::height, frame.rs lines 270-272. -/
def Frame.height (frame : Frame) : Nat := frame.header.height

/-- Index-resolution loop of Frame::get_pixels, frame.rs lines 288-290:
palette[*index as usize] is an unchecked Rust index, an abort when the
index is outside the palette. -/
def Frame.get_pixels_go (palette : List Pixel) : List Nat → Res (List Pixel)
  | [] => .ok []
  | index :: rest =>
      match palette[index]? with
      | some p => (Frame.get_pixels_go palette rest).map (p :: ·)
      | none => .panic

/-- Frame::get_pixels, frame.rs lines 282-296.  For an indexed frame the
source takes &self.palettes[0] before the loop - an abort when there is
no palette at all - and resolves every stored index through it. -/
def Frame.get_pixels (frame : Frame) : Res (List Pixel) :=
  match frame.data with
  | .Indices v =>
      match frame.palettes[0]? with
      | some palette => Frame.get_pixels_go palette v
      | none => .panic
  | .Pixels v => .ok v

/-- Frame::to_raw, frame.rs lines 298-316: four bytes r, g, b, alpha per
pixel, where alpha is 0 when a color key is given and equals the pixel
and the pixel's own alpha otherwise. -/
def Frame.to_raw (frame : Frame) (color_key : Option Pixel) : Res (List Nat) :=
  (Frame.get_pixels frame).map (fun pixels =>
    pixels.flatMap (fun pixel =>
      let alpha := match color_key with
        | some v => if v ≠ pixel then pixel.a else 0
        | none => pixel.a
      [pixel.r, pixel.g, pixel.b, alpha]))

/- ===== image.rs ===== -/

def IDENT : Nat := 0x54494d32

/-- Container header, image.rs lines 12-17. -/
structure Image.Header where
  identifier : Nat
  version : Nat
  count : Nat
deriving DecidableEq, Repr

/-- Header::read, image.rs lines 20-33: big-endian magic, little-endian
version and frame count, eight reserved bytes consumed, and only then the
magic check. -/
def Image.Header.read (buffer : List Nat) (offset : Nat) : Res (Image.Header × Nat) :=
  match get_slice buffer offset 4 with
  | none => .panic
  | some (s_id, o1) =>
  match get_slice buffer o1 2 with
  | none => .panic
  | some (s_ver, o2) =>
  match get_slice buffer o2 2 with
  | none => .panic
  | some (s_count, o3) =>
  match get_slice buffer o3 8 with
  | none => .panic
  | some (_, o4) =>
    let identifier := read_u32_be s_id
    if identifier ≠ IDENT then .err (.InvalidIdentifier identifier)
    else .ok (⟨identifier, read_u16_le s_ver, read_u16_le s_count⟩, o4)

/-- Frame loop of Image::read, image.rs lines 46-48. -/
def Image.frames_go (buffer : List Nat) : Nat → Nat → Res (List Frame × Nat)
  | 0, offset => .ok ([], offset)
  | n + 1, offset =>
      match Frame.read buffer offset with
      | .ok (frame, o1) => (Image.frames_go buffer n o1).map (fun p => (frame :: p.1, p.2))
      | .err e => .err e
      | .panic => .panic

/-- Image, image.rs lines 35-39. -/
structure Image where
  header : Image.Header
  frames : List Frame
deriving DecidableEq, Repr

/-- Image::read, image.rs lines 42-51. -/
def Image.read (buffer : List Nat) (offset : Nat) : Res Image :=
  match Image.Header.read buffer offset with
  | .ok (header, o1) =>
      (Image.frames_go buffer header.count o1).map (fun p => Image.mk header p.1)
  | .err e => .err e
  | .panic => .panic

/- ===== general helper lemmas ===== -/

theorem flatMap_range_map {β : Type} (k : Nat) (g : Nat → Nat → β) :
    ∀ n, (List.range n).flatMap (fun i => (List.range k).map (g i)) =
      (List.range (n * k)).map (fun m => g (m / k) (m % k)) := by
  intro n
  induction n with
  | zero => simp
  | succ n ih =>
    rw [List.range_succ, List.flatMap_append, ih, Nat.succ_mul, List.range_add,
      List.map_append, List.map_map]
    congr 1
    · simp only [List.flatMap_cons, List.flatMap_nil, List.append_nil]
      apply List.map_congr_left
      intro m hm
      have hmk : m < k := List.mem_range.mp hm
      have hk : 0 < k := Nat.pos_of_ne_zero (by omega)
      simp [Function.comp]
      rw [Nat.add_comm (n * k) m, Nat.mul_comm n k]
      rw [Nat.add_mul_div_left m n hk, Nat.add_mul_mod_self_left]
      have : m / k = 0 := Nat.div_eq_of_lt hmk
      rw [this, Nat.zero_add, Nat.mod_eq_of_lt hmk]

theorem foldl_set_counter {α : Type} (V : Nat → α) (l0 : List α) (i0 : Nat) :
    ∀ N,
      ((List.range N).foldl (fun acc m => (acc.1.set acc.2 (V m), acc.2 + 1)) (l0, i0)).2
        = i0 + N ∧
      ((List.range N).foldl (fun acc m => (acc.1.set acc.2 (V m), acc.2 + 1)) (l0, i0)).1.length
        = l0.length ∧
      ∀ d, ((List.range N).foldl (fun acc m => (acc.1.set acc.2 (V m), acc.2 + 1)) (l0, i0)).1[d]?
        = if i0 ≤ d ∧ d < i0 + N ∧ d < l0.length then some (V (d - i0)) else l0[d]? := by
  intro N
  induction N with
  | zero =>
    refine ⟨rfl, rfl, fun d => ?_⟩
    rw [if_neg (by omega)]
    simp
  | succ N ih =>
    obtain ⟨hcnt, hlen, hget⟩ := ih
    rw [List.range_succ, List.foldl_append]
    refine ⟨?_, ?_, ?_⟩
    · simp only [List.foldl_cons, List.foldl_nil]
      rw [hcnt]
      omega
    · simp only [List.foldl_cons, List.foldl_nil, List.length_set]
      exact hlen
    · intro d
      simp only [List.foldl_cons, List.foldl_nil]
      rw [hcnt]
      generalize hq : (List.foldl (fun acc m => (acc.1.set acc.2 (V m), acc.2 + 1))
        (l0, i0) (List.range N)).1 = q at hlen hget
      by_cases hd : d = i0 + N
      · subst hd
        by_cases hin : i0 + N < l0.length
        · rw [List.getElem?_set_self (by omega)]
          rw [if_pos (by omega)]
          have harg : i0 + N - i0 = N := by omega
          rw [harg]
        · have h1 : (q.set (i0 + N) (V N))[i0 + N]? = none :=
            List.getElem?_eq_none (by simp only [List.length_set]; omega)
          have h2 : l0[i0 + N]? = none := List.getElem?_eq_none (by omega)
          rw [h1, if_neg (by omega), h2]
      · rw [List.getElem?_set_ne (by omega), hget d]
        by_cases hcond : i0 ≤ d ∧ d < i0 + N ∧ d < l0.length
        · rw [if_pos hcond, if_pos (by omega)]
        · rw [if_neg hcond, if_neg (by omega)]

theorem lin_quads_eq (pc : Nat) :
    lin_quads pc = (List.range (pc * 32)).map (fun m => (m / 32, m / 16 % 2, m / 8 % 2, m % 8)) := by
  unfold lin_quads
  simp only [flatMap_range_map]
  apply List.map_congr_left
  intro m _
  have h1 : m % 32 / 16 = m / 16 % 2 := by omega
  have h2 : m % 32 % 16 = m % 16 := by omega
  have h3 : m % 16 / 8 = m / 8 % 2 := by omega
  have h4 : m % 16 % 8 = m % 8 := by omega
  rw [h1, h2, h3, h4]

theorem linearize_palette_foldl (p : List Pixel) :
    Frame.linearize_palette p =
      ((List.range (p.length / 32 * 32)).foldl
        (fun acc m =>
          (acc.1.set acc.2
            (p.getD (m / 32 * 8 * 2 * 2 + m / 16 % 2 * 8 + m / 8 % 2 * 2 * 8 + m % 8) default),
           acc.2 + 1))
        (p, 0)).1 := by
  simp only [Frame.linearize_palette, lin_quads_eq, List.foldl_map]


theorem linearize_palette_length (p : List Pixel) :
    (Frame.linearize_palette p).length = p.length := by
  rw [linearize_palette_foldl]
  exact (foldl_set_counter
    (fun m => p.getD (m / 32 * 8 * 2 * 2 + m / 16 % 2 * 8 + m / 8 % 2 * 2 * 8 + m % 8) default)
    p 0 (p.length / 32 * 32)).2.1

theorem linearize_palette_getElem (p : List Pixel) (d : Nat) :
    (Frame.linearize_palette p)[d]? =
      if d < p.length / 32 * 32 then
        p[d / 32 * 32 + d / 16 % 2 * 8 + d / 8 % 2 * 16 + d % 8]?
      else p[d]? := by
  rw [linearize_palette_foldl]
  have h := (foldl_set_counter
    (fun m => p.getD (m / 32 * 8 * 2 * 2 + m / 16 % 2 * 8 + m / 8 % 2 * 2 * 8 + m % 8) default)
    p 0 (p.length / 32 * 32)).2.2 d
  rw [h]
  by_cases hd : d < p.length / 32 * 32
  · rw [if_pos (by omega), if_pos hd]
    have hle : p.length / 32 * 32 ≤ p.length := Nat.div_mul_le_self p.length 32
    have hsrc : d / 32 * 8 * 2 * 2 + d / 16 % 2 * 8 + d / 8 % 2 * 2 * 8 + d % 8 < p.length := by
      have hq : d / 32 < p.length / 32 := by
        rcases Nat.lt_or_ge (d / 32) (p.length / 32) with h1 | h1
        · exact h1
        · exfalso; have := Nat.mul_le_mul_right 32 h1; omega
      have hb1 : d / 16 % 2 ≤ 1 := by omega
      have hb2 : d / 8 % 2 ≤ 1 := by omega
      have hb3 : d % 8 ≤ 7 := by omega
      have : d / 32 * 8 * 2 * 2 + 31 < p.length / 32 * 32 := by
        have := Nat.succ_le_of_lt hq
        nlinarith
      omega
    have harg : d / 32 * 8 * 2 * 2 + d / 16 % 2 * 8 + d / 8 % 2 * 2 * 8 + d % 8
        = d / 32 * 32 + d / 16 % 2 * 8 + d / 8 % 2 * 16 + d % 8 := by ring_nf
    simp only [Nat.sub_zero]
    rw [List.getD_eq_getElem?_getD, harg,
      List.getElem?_eq_getElem (show d / 32 * 32 + d / 16 % 2 * 8 + d / 8 % 2 * 16 + d % 8 < p.length by omega)]
    rfl
  · rw [if_neg (by omega), if_neg hd]

/-- Concrete 4-bpp header used to evaluate the nibble-unpacking bug of C1:
a 1 x 4 paletted frame with image_size = 2 and no swizzle bit. -/
def hdr4bpp : Frame.Header :=
  { total_size := 0, palette_size := 32, image_size := 2, header_size := 48,
    color_entry_count := 16, paletted := 1, mipmap_count := 1, clut_format := 0x81,
    bpp := 4, width := 1, height := 4, gs_regs := 0, gs_tex_clut := 0,
    gs_tex_0 := 0, gs_tex_1 := 0, user_data := [] }

/-- C1, status code_bug.  The claim (and the design document, section 4.5)
say the 4-bpp decoder emits the high nibble (byte and 0xF0) >> 4 first and
the low nibble second, so payload 0x12 0x34 decodes to [1, 2, 3, 4].  The
source expression *index_pair & 0xF0 >> 4 parses as
index_pair & (0xF0 >> 4) = index_pair & 0x0F because >> binds tighter
than & in Rust, so the code emits the low nibble twice: on the claim's own
concrete input the decoded stream is [2, 2, 4, 4], not [1, 2, 3, 4].  The
design document's section 9 flags exactly this as a known decoder bug. -/
theorem c1_nibble_unpacking_eval :
    Frame.read_data [0x12, 0x34] 0 hdr4bpp = .ok (DataKind.Indices [2, 2, 4, 4], 2) ∧
    ([2, 2, 4, 4] : List Nat) ≠ [1, 2, 3, 4] := by
  decide

lemma palettes_go_spec (slice : List Nat) (size : Nat) (header : Frame.Header) :
    ∀ (idxs : List Nat) (pals : List (List Pixel)),
      Frame.palettes_go slice size header idxs = .ok pals →
      ∀ (j : Nat) (pal : List Pixel), pals[j]? = some pal →
      ∃ i raw, idxs[j]? = some i ∧ size * i + size ≤ slice.length ∧
        Frame.read_colors ((slice.drop (size * i)).take size) header.color_size = .ok raw ∧
        pal = (if ¬ header.is_linear_palette ∧ header.bpp = 8
               then Frame.linearize_palette raw else raw) := by
  intro idxs
  induction idxs with
  | nil =>
    intro pals h j pal hj
    simp only [Frame.palettes_go] at h
    cases h
    simp at hj
  | cons i rest ih =>
    intro pals h j pal hj
    simp only [Frame.palettes_go] at h
    by_cases hb : size * i + size ≤ slice.length
    · rw [if_pos hb] at h
      cases hrc : Frame.read_colors ((slice.drop (size * i)).take size) header.color_size with
      | ok palette0 =>
        rw [hrc] at h
        cases hgo : Frame.palettes_go slice size header rest with
        | ok restPals =>
          rw [hgo] at h
          simp only [Res.map_ok, Res.ok.injEq] at h
          subst h
          cases j with
          | zero =>
            simp only [List.getElem?_cons_zero, Option.some.injEq] at hj
            exact ⟨i, palette0, List.getElem?_cons_zero, hb, hrc, hj.symm⟩
          | succ j =>
            simp only [List.getElem?_cons_succ] at hj
            obtain ⟨i2, raw, h1, hb2, h2, h3⟩ := ih restPals hgo j pal hj
            exact ⟨i2, raw, by simpa using h1, hb2, h2, h3⟩
        | err e => rw [hgo] at h; simp at h
        | panic => rw [hgo] at h; simp at h
      | err e => rw [hrc] at h; simp at h
      | panic => rw [hrc] at h; simp at h
    · rw [if_neg hb] at h
      simp at h


lemma read_palettes_ok_inv (buffer : List Nat) (offset : Nat) (header : Frame.Header)
    (pals : List (List Pixel)) (o2 : Nat) (hz : header.palette_size ≠ 0)
    (h : Frame.read_palettes buffer offset header = .ok (pals, o2)) :
    ∃ slice, get_slice buffer offset header.palette_size = some (slice, o2) ∧
      header.color_entry_count * header.color_size ≠ 0 ∧
      Frame.palettes_go slice (header.color_entry_count * header.color_size) header
        (List.range (header.palette_size / (header.color_entry_count * header.color_size)))
        = .ok pals := by
  simp only [Frame.read_palettes] at h
  rw [if_neg hz] at h
  cases hgs : get_slice buffer offset header.palette_size with
  | none => rw [hgs] at h; simp at h
  | some p1 =>
    rw [hgs] at h
    obtain ⟨slice, o1⟩ := p1
    dsimp only at h
    by_cases hsz : header.color_entry_count * header.color_size = 0
    · rw [if_pos hsz] at h; simp at h
    · rw [if_neg hsz] at h
      cases hgo : Frame.palettes_go slice (header.color_entry_count * header.color_size)
          header (List.range (header.palette_size / (header.color_entry_count * header.color_size))) with
      | ok pals2 =>
        rw [hgo] at h
        simp only [Res.map_ok, Res.ok.injEq, Prod.mk.injEq] at h
        obtain ⟨h1, h2⟩ := h
        subst h1
        subst h2
        exact ⟨slice, rfl, hsz, hgo⟩
      | err e => rw [hgo] at h; simp at h
      | panic => rw [hgo] at h; simp at h

/-- C3, status confirmed. -/
theorem c3_palette_linearization :
    (∀ (p : List Pixel) (part block stripe color : Nat),
        part < p.length / 32 → block < 2 → stripe < 2 → color < 8 →
        (Frame.linearize_palette p)[part * 32 + block * 16 + stripe * 8 + color]? =
          p[part * 32 + block * 8 + stripe * 16 + color]?) ∧
    (∀ (p : List Pixel) (d : Nat), p.length / 32 * 32 ≤ d →
        (Frame.linearize_palette p)[d]? = p[d]?) ∧
    (∀ (buffer : List Nat) (offset : Nat) (header : Frame.Header)
        (pals : List (List Pixel)) (o2 : Nat),
        Frame.read_palettes buffer offset header = .ok (pals, o2) →
        ∀ (j : Nat) (pal : List Pixel), pals[j]? = some pal →
        ∃ slice raw,
          get_slice buffer offset header.palette_size = some (slice, o2) ∧
          Frame.read_colors
            ((slice.drop (header.color_entry_count * header.color_size * j)).take
              (header.color_entry_count * header.color_size)) header.color_size = .ok raw ∧
          pal = (if ¬ header.is_linear_palette ∧ header.bpp = 8
                 then Frame.linearize_palette raw else raw)) := by
  refine ⟨?_, ?_, ?_⟩
  · intro p part block stripe color hp hb hs hc
    have hd : part * 32 + block * 16 + stripe * 8 + color < p.length / 32 * 32 := by
      have : part + 1 ≤ p.length / 32 := hp
      nlinarith
    rw [linearize_palette_getElem, if_pos hd]
    congr 1
    omega
  · intro p d hd
    rw [linearize_palette_getElem, if_neg (by omega)]
  · intro buffer offset header pals o2 h j pal hj
    by_cases hz : header.palette_size = 0
    · simp only [Frame.read_palettes, if_pos hz] at h
      simp only [Res.ok.injEq, Prod.mk.injEq] at h
      obtain ⟨h1, h2⟩ := h
      subst h1
      simp at hj
    · obtain ⟨slice, hgs, hsz, hgo⟩ := read_palettes_ok_inv buffer offset header pals o2 hz h
      obtain ⟨i, raw, hi, hbd, hrc, hpal⟩ := palettes_go_spec _ _ _ _ _ hgo j pal hj
      have hij : i = j := by
        by_cases hjr : j < header.palette_size / (header.color_entry_count * header.color_size)
        · rw [List.getElem?_range hjr] at hi; exact (Option.some.injEq _ _ ▸ hi).symm
        · rw [List.getElem?_eq_none (by simpa using Nat.le_of_not_lt hjr)] at hi; cases hi
      subst hij
      exact ⟨slice, raw, hgs, hrc, hpal⟩

theorem c3_witness :
    (Frame.linearize_palette ((List.range 32).map (fun i => Pixel.mk i 0 0 0)))[16]? =
      ((List.range 32).map (fun i => Pixel.mk i 0 0 0))[8]? :=
  c3_palette_linearization.1 ((List.range 32).map (fun i => Pixel.mk i 0 0 0)) 0 1 0 0
    (by decide) (by decide) (by decide) (by decide)


lemma read_colors_go_spec (buffer : List Nat) (cs : Nat) :
    ∀ (n offset : Nat) (l : List Pixel),
      Frame.read_colors_go buffer cs n offset = .ok l →
      l.length = n ∧ (0 < n → offset + cs * n ≤ buffer.length) := by
  intro n
  induction n with
  | zero =>
    intro offset l h
    simp only [Frame.read_colors_go] at h
    cases h
    simp
  | succ n ih =>
    intro offset l h
    simp only [Frame.read_colors_go] at h
    cases hgs : get_slice buffer offset cs with
    | none => rw [hgs] at h; cases h
    | some p1 =>
      rw [hgs] at h
      obtain ⟨slice, o2⟩ := p1
      dsimp only at h
      cases hfb : Pixel.from_buf slice with
      | ok p =>
        rw [hfb] at h
        cases hgo : Frame.read_colors_go buffer cs n o2 with
        | ok l2 =>
          rw [hgo] at h
          simp only [Res.map_ok, Res.ok.injEq] at h
          subst h
          obtain ⟨hlen, hbd⟩ := ih o2 l2 hgo
          have hgs2 : offset + cs ≤ buffer.length ∧ o2 = offset + cs := by
            simp only [get_slice] at hgs
            split at hgs
            · exact ⟨by assumption, by cases hgs; rfl⟩
            · cases hgs
          constructor
          · simp [hlen]
          · intro _
            rcases Nat.eq_zero_or_pos n with h0 | h0
            · subst h0; omega
            · have := hbd h0
              have := hgs2.2
              subst this
              have : cs * (n + 1) = cs + cs * n := by ring
              omega
        | err e => rw [hgo] at h; cases h
        | panic => rw [hgo] at h; cases h
      | err e => rw [hfb] at h; cases h
      | panic => rw [hfb] at h; cases h

lemma read_colors_spec (buf : List Nat) (cs : Nat) (l : List Pixel)
    (h : Frame.read_colors buf cs = .ok l) :
    l.length = buf.length / cs ∧ cs ∣ buf.length ∧ cs ≠ 0 := by
  rw [Frame.read_colors] at h
  split at h
  · cases h
  · rename_i hcs
    have hcspos : 0 < cs := Nat.pos_of_ne_zero hcs
    obtain ⟨hlen, hbd⟩ := read_colors_go_spec buf cs ((buf.length + cs - 1) / cs) 0 l h
    have hqr : cs * (buf.length / cs) + buf.length % cs = buf.length := Nat.div_add_mod _ _
    have hrlt : buf.length % cs < cs := Nat.mod_lt _ hcspos
    obtain ⟨u, hu⟩ : ∃ u, cs * (buf.length / cs) = u := ⟨_, rfl⟩
    rw [hu] at hqr
    by_cases hr0 : buf.length % cs = 0
    · have hceil : (buf.length + cs - 1) / cs = buf.length / cs := by
        have h1 : buf.length + cs - 1 = cs * (buf.length / cs) + (cs - 1) := by
          rw [hu]; omega
        have h2 : (cs - 1) / cs = 0 := Nat.div_eq_of_lt (by omega)
        rw [h1, Nat.mul_add_div hcspos, h2]
        exact Nat.add_zero _
      rw [hceil] at hlen
      exact ⟨hlen, Nat.dvd_of_mod_eq_zero hr0, hcs⟩
    · exfalso
      have he : cs * (buf.length / cs + 1) = cs * (buf.length / cs) + cs := by ring
      rw [hu] at he
      obtain ⟨v, hv⟩ : ∃ v, cs * (buf.length / cs + 1) = v := ⟨_, rfl⟩
      rw [hv] at he
      have hceil : (buf.length + cs - 1) / cs = buf.length / cs + 1 := by
        have h1 : buf.length + cs - 1 = cs * (buf.length / cs + 1) + (buf.length % cs - 1) := by
          rw [hv]; omega
        have h2 : (buf.length % cs - 1) / cs = 0 := Nat.div_eq_of_lt (by omega)
        rw [h1, Nat.mul_add_div hcspos, h2]
      rw [hceil] at hlen hbd
      have hb := hbd (Nat.succ_pos _)
      rw [Nat.zero_add, hv] at hb
      omega

lemma palettes_go_length (slice : List Nat) (size : Nat) (header : Frame.Header) :
    ∀ (idxs : List Nat) (pals : List (List Pixel)),
      Frame.palettes_go slice size header idxs = .ok pals → pals.length = idxs.length := by
  intro idxs
  induction idxs with
  | nil =>
    intro pals h
    simp only [Frame.palettes_go] at h
    cases h
    rfl
  | cons i rest ih =>
    intro pals h
    simp only [Frame.palettes_go] at h
    by_cases hb : size * i + size ≤ slice.length
    · rw [if_pos hb] at h
      cases hrc : Frame.read_colors ((slice.drop (size * i)).take size) header.color_size with
      | ok palette0 =>
        rw [hrc] at h
        cases hgo : Frame.palettes_go slice size header rest with
        | ok restPals =>
          rw [hgo] at h
          simp only [Res.map_ok, Res.ok.injEq] at h
          subst h
          simp [ih restPals hgo]
        | err e => rw [hgo] at h; simp at h
        | panic => rw [hgo] at h; simp at h
      | err e => rw [hrc] at h; simp at h
      | panic => rw [hrc] at h; simp at h
    · rw [if_neg hb] at h
      simp at h

/-- C6, status corrected: the palette count is the floor quotient
palette_size / (color_entry_count * color_size) and every decoded palette
has color_entry_count entries, but the division need not be exact - the
decoder consumes palette_size bytes whole and silently ignores remainder
bytes, as c6_division_not_exact_cex shows on a successfully parsed frame
with palette_size = 33 and 32-byte palettes. -/
theorem c6_palette_count_amended :
    ∀ (buffer : List Nat) (offset : Nat) (header : Frame.Header)
      (pals : List (List Pixel)) (o2 : Nat),
      header.palette_size > 0 →
      Frame.read_palettes buffer offset header = .ok (pals, o2) →
      pals.length = header.palette_size / (header.color_entry_count * header.color_size) ∧
      ∀ pal ∈ pals, pal.length = header.color_entry_count := by
  intro buffer offset header pals o2 hpos h
  obtain ⟨slice, hgs, hsz, hgo⟩ := read_palettes_ok_inv buffer offset header pals o2 (by omega) h
  constructor
  · rw [palettes_go_length _ _ _ _ _ hgo, List.length_range]
  · intro pal hmem
    obtain ⟨j, hj⟩ := List.mem_iff_getElem?.mp hmem
    obtain ⟨i, raw, hi, hbd, hrc, hpal⟩ := palettes_go_spec _ _ _ _ _ hgo j pal hj
    obtain ⟨hlen, hdvd, hcs⟩ := read_colors_spec _ _ _ hrc
    have hchunk : ((slice.drop (header.color_entry_count * header.color_size * i)).take
        (header.color_entry_count * header.color_size)).length
        = header.color_entry_count * header.color_size := by
      simp only [List.length_take, List.length_drop]
      omega
    rw [hchunk] at hlen
    have hcspos : 0 < header.color_size := Nat.pos_of_ne_zero hcs
    have hcec : raw.length = header.color_entry_count := by
      rw [hlen, Nat.mul_div_cancel _ hcspos]
    subst hpal
    split
    · rw [linearize_palette_length, hcec]
    · exact hcec

/-- Concrete 82-byte buffer: one 8-bpp 1 x 1 frame whose header declares
palette_size = 33 with 16-entry 2-byte-sample palettes (32 bytes per
palette), followed by 1 payload byte and 33 palette bytes. -/
def c6buf : List Nat :=
  [0,0,0,0, 33,0,0,0, 1,0,0,0, 48,0, 16,0, 1, 1, 0x81, 5, 1,0, 1,0,
   0,0,0,0,0,0,0,0, 0,0,0,0,0,0,0,0, 0,0,0,0, 0,0,0,0]
  ++ [7] ++ List.replicate 33 0

/-- C6 counterexample: the frame of c6buf parses successfully, has one
palette, and 1 * (16 * 2) = 32 is not the declared palette_size 33, so
palette count times palette byte length differs from palette_size. -/
theorem c6_division_not_exact_cex :
    (Frame.read c6buf 0).map (fun p =>
        (p.1.palettes.length, p.1.header.palette_size, p.1.header.color_entry_count,
         p.1.header.color_size, p.2))
      = .ok (1, 33, 16, 2, 82) ∧
    1 * (16 * 2) ≠ 33 := by
  decide

/-- Header of the frame in c6buf, used to exercise c6_palette_count_amended. -/
def hdrC6 : Frame.Header :=
  { total_size := 0, palette_size := 33, image_size := 1, header_size := 48,
    color_entry_count := 16, paletted := 1, mipmap_count := 1, clut_format := 0x81,
    bpp := 8, width := 1, height := 1, gs_regs := 0, gs_tex_clut := 0,
    gs_tex_0 := 0, gs_tex_1 := 0, user_data := [] }

theorem c6_witness :
    ([List.replicate 16 (Pixel.mk 0 0 0 0)] : List (List Pixel)).length
      = hdrC6.palette_size / (hdrC6.color_entry_count * hdrC6.color_size) :=
  (c6_palette_count_amended (List.replicate 33 0) 0 hdrC6
    [List.replicate 16 (Pixel.mk 0 0 0 0)] 33 (by decide) (by decide)).1

lemma get_pixels_go_ne_err (p0 : List Pixel) :
    ∀ (v : List Nat) (e : Error), Frame.get_pixels_go p0 v ≠ .err e := by
  intro v
  induction v with
  | nil => intro e h; simp [Frame.get_pixels_go] at h
  | cons i rest ih =>
    intro e h
    simp only [Frame.get_pixels_go] at h
    cases hp : p0[i]? with
    | some p =>
      rw [hp] at h
      cases hgo : Frame.get_pixels_go p0 rest with
      | ok l => rw [hgo] at h; simp at h
      | err e2 => exact ih e2 hgo
      | panic => rw [hgo] at h; simp at h
    | none => rw [hp] at h; simp at h

lemma get_pixels_go_panic_iff (p0 : List Pixel) :
    ∀ (v : List Nat), Frame.get_pixels_go p0 v = .panic ↔ ∃ i ∈ v, p0.length ≤ i := by
  intro v
  induction v with
  | nil => simp [Frame.get_pixels_go]
  | cons i rest ih =>
    simp only [Frame.get_pixels_go]
    cases hp : p0[i]? with
    | some p =>
      have hilt : i < p0.length := by
        by_contra hge
        rw [List.getElem?_eq_none (by omega)] at hp
        cases hp
      cases hgo : Frame.get_pixels_go p0 rest with
      | ok l =>
        simp only [Res.map_ok]
        constructor
        · intro h; cases h
        · rintro ⟨j, hj, hle⟩
          rcases List.mem_cons.mp hj with h1 | h1
          · omega
          · exact absurd (ih.mpr ⟨j, h1, hle⟩) (by rw [hgo]; intro h; cases h)
      | err e => exact absurd hgo (get_pixels_go_ne_err p0 rest e)
      | panic =>
        simp only [Res.map_panic]
        constructor
        · intro _
          obtain ⟨j, hj, hle⟩ := ih.mp hgo
          exact ⟨j, List.mem_cons_of_mem _ hj, hle⟩
        · intro _; trivial
    | none =>
      have hge : p0.length ≤ i := by
        by_contra hlt
        rw [List.getElem?_eq_getElem (by omega)] at hp
        cases hp
      constructor
      · intro _
        exact ⟨i, List.mem_cons_self _ _, hge⟩
      · intro _; trivial

lemma get_pixels_go_ok (p0 : List Pixel) :
    ∀ (v : List Nat), (∀ i ∈ v, i < p0.length) →
      Frame.get_pixels_go p0 v = .ok (v.map (fun i => p0.getD i default)) := by
  intro v
  induction v with
  | nil => intro _; rfl
  | cons i rest ih =>
    intro hin
    simp only [Frame.get_pixels_go]
    have hilt : i < p0.length := hin i (List.mem_cons_self _ _)
    rw [List.getElem?_eq_getElem hilt, ih (fun j hj => hin j (List.mem_cons_of_mem _ hj))]
    simp only [Res.map_ok, Res.ok.injEq, List.map_cons, List.cons.injEq]
    constructor
    · rw [List.getD_eq_getElem?_getD, List.getElem?_eq_getElem hilt]
      rfl
    · trivial

/-- C10, status confirmed: for an indexed frame, get_pixels resolves
every stored index through palettes[0] with unchecked indexing; it aborts
(never returns an Error) exactly when there is no palette at all or some
stored index reaches past palettes[0], and succeeds otherwise; to_raw
calls get_pixels first and aborts with it. -/
theorem c10_get_pixels_partiality :
    ∀ (hdr : Frame.Header) (v : List Nat) (pals : List (List Pixel)) (key : Option Pixel),
      (Frame.get_pixels ⟨hdr, .Indices v, pals⟩ = .panic ↔
        (pals[0]? = none ∨ ∃ p0 i, pals[0]? = some p0 ∧ i ∈ v ∧ p0.length ≤ i)) ∧
      (∀ e, Frame.get_pixels ⟨hdr, .Indices v, pals⟩ ≠ .err e) ∧
      (∀ p0, pals[0]? = some p0 → (∀ i ∈ v, i < p0.length) →
        Frame.get_pixels ⟨hdr, .Indices v, pals⟩
          = .ok (v.map (fun i => p0.getD i default))) ∧
      (Frame.get_pixels ⟨hdr, .Indices v, pals⟩ = .panic →
        Frame.to_raw ⟨hdr, .Indices v, pals⟩ key = .panic) := by
  intro hdr v pals key
  refine ⟨?_, ?_, ?_, ?_⟩
  · simp only [Frame.get_pixels]
    cases hp : pals[0]? with
    | some p0 =>
      rw [get_pixels_go_panic_iff]
      constructor
      · rintro ⟨i, hi, hle⟩
        exact Or.inr ⟨p0, i, rfl, hi, hle⟩
      · rintro (h1 | ⟨p1, i, hp1, hi, hle⟩)
        · cases h1
        · cases hp1
          exact ⟨i, hi, hle⟩
    | none =>
      constructor
      · intro _; exact Or.inl rfl
      · intro _; trivial
  · intro e
    simp only [Frame.get_pixels]
    cases hp : pals[0]? with
    | some p0 => exact get_pixels_go_ne_err p0 v e
    | none => intro h; cases h
  · intro p0 hp hin
    simp only [Frame.get_pixels, hp]
    exact get_pixels_go_ok p0 v hin
  · intro h
    simp only [Frame.to_raw, h, Res.map_panic]

theorem c10_witness :
    Frame.get_pixels ⟨hdr4bpp, .Indices [0, 0], [[Pixel.mk 1 2 3 4]]⟩
      = .ok [Pixel.mk 1 2 3 4, Pixel.mk 1 2 3 4] :=
  (c10_get_pixels_partiality hdr4bpp [0, 0] [[Pixel.mk 1 2 3 4]] none).2.2.1
    [Pixel.mk 1 2 3 4] rfl (by decide)

lemma flatMap4_getElem {α : Type} (f : α → List Nat) (hf : ∀ a, (f a).length = 4) :
    ∀ (l : List α) (k j : Nat), j < 4 → ∀ a, l[k]? = some a →
      (l.flatMap f)[4 * k + j]? = (f a)[j]? := by
  intro l
  induction l with
  | nil => intro k j _ a ha; simp at ha
  | cons x rest ih =>
    intro k j hj a ha
    rw [List.flatMap_cons]
    cases k with
    | zero =>
      simp only [List.getElem?_cons_zero, Option.some.injEq] at ha
      subst ha
      rw [List.getElem?_append]
      have hlt : 4 * 0 + j < (f x).length := by rw [hf]; omega
      rw [if_pos hlt]
      have h0 : 4 * 0 + j = j := by omega
      rw [h0]
    | succ k =>
      simp only [List.getElem?_cons_succ] at ha
      rw [List.getElem?_append]
      have hge : ¬ (4 * (k + 1) + j < (f x).length) := by rw [hf]; omega
      rw [if_neg hge, hf]
      have harith : 4 * (k + 1) + j - 4 = 4 * k + j := by omega
      rw [harith]
      exact ih k j hj a ha

lemma flatMap4_length {α : Type} (f : α → List Nat) (hf : ∀ a, (f a).length = 4) :
    ∀ (l : List α), (l.flatMap f).length = 4 * l.length := by
  intro l
  induction l with
  | nil => rfl
  | cons x rest ih =>
    rw [List.flatMap_cons, List.length_append, hf, ih, List.length_cons]
    ring

/-- C7, status corrected: the first three bytes of every emitted quad are
the pixel's r, g, b; the alpha byte under a color key p is 0 when the
pixel equals p and the pixel's own alpha otherwise; without a key it is
the pixel's alpha.  The claim's iff direction fails: the alpha byte is 0
exactly when the pixel equals the key OR its own alpha is already 0
(see c7_color_key_iff_cex). -/
theorem c7_color_key_amended :
    ∀ (frame : Frame) (key : Pixel) (pixels : List Pixel) (rawK rawN : List Nat)
      (k : Nat) (px : Pixel),
      Frame.get_pixels frame = .ok pixels →
      Frame.to_raw frame (some key) = .ok rawK →
      Frame.to_raw frame none = .ok rawN →
      pixels[k]? = some px →
      rawK[4 * k]? = some px.r ∧
      rawK[4 * k + 1]? = some px.g ∧
      rawK[4 * k + 2]? = some px.b ∧
      rawK[4 * k + 3]? = some (if px = key then 0 else px.a) ∧
      rawN[4 * k + 3]? = some px.a ∧
      (rawK[4 * k + 3]? = some 0 ↔ (px = key ∨ px.a = 0)) := by
  intro frame key pixels rawK rawN k px hg hk hn hpx
  have hkV : rawK = pixels.flatMap (fun pixel =>
      [pixel.r, pixel.g, pixel.b, if key ≠ pixel then pixel.a else 0]) := by
    rw [Frame.to_raw, hg] at hk
    simp only [Res.map_ok, Res.ok.injEq] at hk
    exact hk.symm
  have hnV : rawN = pixels.flatMap (fun pixel => [pixel.r, pixel.g, pixel.b, pixel.a]) := by
    rw [Frame.to_raw, hg] at hn
    simp only [Res.map_ok, Res.ok.injEq] at hn
    exact hn.symm
  have halpha : (if key ≠ px then px.a else 0) = (if px = key then 0 else px.a) := by
    by_cases h : px = key
    · subst h
      simp
    · rw [if_neg h, if_pos (fun e => h e.symm)]
  refine ⟨?_, ?_, ?_, ?_, ?_, ?_⟩
  · rw [hkV]
    exact flatMap4_getElem (fun pixel => [pixel.r, pixel.g, pixel.b, if key ≠ pixel then pixel.a else 0]) (fun a => rfl) pixels k 0 (by omega) px hpx
  · rw [hkV]
    exact flatMap4_getElem (fun pixel => [pixel.r, pixel.g, pixel.b, if key ≠ pixel then pixel.a else 0]) (fun a => rfl) pixels k 1 (by omega) px hpx
  · rw [hkV]
    exact flatMap4_getElem (fun pixel => [pixel.r, pixel.g, pixel.b, if key ≠ pixel then pixel.a else 0]) (fun a => rfl) pixels k 2 (by omega) px hpx
  · rw [hkV]
    rw [flatMap4_getElem (fun pixel => [pixel.r, pixel.g, pixel.b, if key ≠ pixel then pixel.a else 0]) (fun a => rfl) pixels k 3 (by omega) px hpx]
    rw [show ([px.r, px.g, px.b, if key ≠ px then px.a else 0] : List Nat)[3]?
        = some (if key ≠ px then px.a else 0) from rfl]
    rw [halpha]
  · rw [hnV]
    exact flatMap4_getElem (fun pixel => [pixel.r, pixel.g, pixel.b, pixel.a])
      (fun a => rfl) pixels k 3 (by omega) px hpx
  · rw [hkV]
    rw [flatMap4_getElem (fun pixel => [pixel.r, pixel.g, pixel.b, if key ≠ pixel then pixel.a else 0]) (fun a => rfl) pixels k 3 (by omega) px hpx]
    rw [show ([px.r, px.g, px.b, if key ≠ px then px.a else 0] : List Nat)[3]?
        = some (if key ≠ px then px.a else 0) from rfl]
    rw [halpha]
    simp only [Option.some.injEq]
    by_cases h : px = key
    · simp [h]
    · simp [h]

/-- True-color 32-bpp 1 x 1 header used by the C7 witness. -/
def hdrTrue32 : Frame.Header :=
  { total_size := 0, palette_size := 0, image_size := 4, header_size := 48,
    color_entry_count := 0, paletted := 0, mipmap_count := 1, clut_format := 0,
    bpp := 32, width := 1, height := 1, gs_regs := 0, gs_tex_clut := 0,
    gs_tex_0 := 0, gs_tex_1 := 0, user_data := [] }

def c7frame : Frame := ⟨hdrTrue32, .Pixels [Pixel.mk 1 2 3 4], []⟩

theorem c7_witness :
    (([1, 2, 3, 4] : List Nat))[4 * 0 + 3]? =
      some (if Pixel.mk 1 2 3 4 = Pixel.mk 9 9 9 9 then 0 else (Pixel.mk 1 2 3 4).a) :=
  (c7_color_key_amended c7frame (Pixel.mk 9 9 9 9) [Pixel.mk 1 2 3 4] [1, 2, 3, 4]
    [1, 2, 3, 4] 0 (Pixel.mk 1 2 3 4) rfl (by decide) (by decide) (by decide)).2.2.2.1

/-- Concrete 52-byte buffer: one 32-bpp true-color 1 x 1 frame whose only
pixel is (1, 0, 0, 0) - alpha already 0. -/
def c7buf : List Nat :=
  [0,0,0,0, 0,0,0,0, 4,0,0,0, 48,0, 0,0, 0, 1, 0, 3, 1,0, 1,0,
   0,0,0,0,0,0,0,0, 0,0,0,0,0,0,0,0, 0,0,0,0, 0,0,0,0]
  ++ [1, 0, 0, 0]

/-- C7 counterexample: on the decoded frame of c7buf, with color key
(9, 9, 9, 9), the alpha byte to_raw(Some key)[3] is 0 (the pixel's own
alpha is 0) although get_pixels()[0] is (1, 0, 0, 0), not the key - the
claim's "== 0 iff get_pixels()[k] == p" is false at k = 0. -/
theorem c7_color_key_iff_cex :
    (Frame.read c7buf 0).map (fun p =>
        (Frame.to_raw p.1 (some (Pixel.mk 9 9 9 9)), Frame.get_pixels p.1))
      = .ok (.ok [1, 0, 0, 0], .ok [Pixel.mk 1 0 0 0]) ∧
    ¬ (([1, 0, 0, 0] : List Nat)[4 * 0 + 3]? = some 0 ↔
        ([Pixel.mk 1 0 0 0] : List Pixel)[0]? = some (Pixel.mk 9 9 9 9)) := by
  decide

lemma get_slice_succeeds (buffer : List Nat) (offset sz : Nat) (h : offset + sz ≤ buffer.length) :
    get_slice buffer offset sz
      = some (((buffer.drop offset).take sz).map (· % 256), offset + sz) := by
  rw [get_slice, if_pos h]

lemma get_slice_fails (buffer : List Nat) (offset sz : Nat) (h : ¬ offset + sz ≤ buffer.length) :
    get_slice buffer offset sz = none := by
  rw [get_slice, if_neg h]

/-- The slices returned by consecutive reads of the given sizes. -/
def slices_of (buffer : List Nat) (offset : Nat) : List Nat → List (List Nat)
  | [] => []
  | sz :: rest => ((buffer.drop offset).take sz).map (· % 256) :: slices_of buffer (offset + sz) rest

lemma get_slices_eq (buffer : List Nat) :
    ∀ (szs : List Nat) (offset : Nat), szs ≠ [] →
      get_slices buffer offset szs =
        if offset + szs.sum ≤ buffer.length
        then some (slices_of buffer offset szs, offset + szs.sum)
        else none := by
  intro szs
  induction szs with
  | nil => intro offset h; exact absurd rfl h
  | cons sz rest ih =>
    intro offset _
    simp only [get_slices]
    by_cases h1 : offset + sz ≤ buffer.length
    · rw [get_slice_succeeds buffer offset sz h1]
      dsimp only
      cases rest with
      | nil =>
        simp only [get_slices, slices_of, List.sum_cons, List.sum_nil]
        rw [if_pos (by omega)]
        simp only [Option.some.injEq, Prod.mk.injEq]
        exact ⟨trivial, by omega⟩
      | cons sz2 rest2 =>
        rw [ih (offset + sz) (by simp)]
        by_cases h2 : offset + sz + (sz2 :: rest2).sum ≤ buffer.length
        · rw [if_pos h2]
          dsimp only
          rw [if_pos (by simp only [List.sum_cons] at h2 ⊢; omega)]
          simp only [slices_of, List.sum_cons, Option.some.injEq, Prod.mk.injEq]
          exact ⟨trivial, by omega⟩
        · rw [if_neg h2]
          dsimp only
          rw [if_neg (by simp only [List.sum_cons] at h2 ⊢; omega)]
    · rw [get_slice_fails buffer offset sz h1]
      rw [if_neg (by simp only [List.sum_cons]; omega)]

lemma find_bpp_mem (n b : Nat) (h : Frame.Header.find_bpp n = .ok b) :
    b = 4 ∨ b = 8 ∨ b = 16 ∨ b = 24 ∨ b = 32 := by
  unfold Frame.Header.find_bpp at h
  split at h <;> (try cases h) <;> omega

lemma find_bpp_err (n : Nat) (e : Error) (h : Frame.Header.find_bpp n = .err e) :
    e = .InvalidBppFormat n := by
  unfold Frame.Header.find_bpp at h
  split at h <;> (try cases h) <;> rfl

lemma attachUserData_ok_inv (buffer : List Nat) (o15 : Nat) (result : Frame.Header)
    (h : Frame.Header) (o : Nat)
    (hf : Frame.Header.attachUserData buffer o15 result = .ok (h, o)) :
    ∃ ud, h = { result with user_data := ud } := by
  rw [Frame.Header.attachUserData.eq_def] at hf
  dsimp only at hf
  split at hf
  · split at hf
    · cases hf
    · rename_i ud o16 hg
      cases hf
      exact ⟨ud, rfl⟩
  · cases hf
    exact ⟨result.user_data, rfl⟩

lemma attachUserData_ne_err (buffer : List Nat) (o15 : Nat) (result : Frame.Header) (e : Error) :
    Frame.Header.attachUserData buffer o15 result ≠ .err e := by
  rw [Frame.Header.attachUserData.eq_def]
  dsimp only
  split
  · split
    · intro h; cases h
    · rename_i ud o16 hg
      intro h; cases h
  · intro h; cases h

lemma readFields_ok_bpp (buffer : List Nat) (offset : Nat) (h : Frame.Header) (o : Nat)
    (hf : Frame.Header.readFields buffer offset = .ok (h, o)) :
    ∃ n, Frame.Header.find_bpp n = .ok h.bpp := by
  rw [Frame.Header.readFields.eq_def] at hf
  split at hf
  · cases hf
  · rename_i ss o9 hg1
    split at hf
    · cases hf
    · cases hf
    · rename_i bpp hfb
      split at hf
      · cases hf
      · rename_i ss2 o15 hg2
        obtain ⟨ud, hud⟩ := attachUserData_ok_inv _ _ _ _ _ hf
        subst hud
        exact ⟨_, hfb⟩

lemma readFields_err_bpp (buffer : List Nat) (offset : Nat) (e : Error)
    (hf : Frame.Header.readFields buffer offset = .err e) :
    ∃ n, e = .InvalidBppFormat n := by
  rw [Frame.Header.readFields.eq_def] at hf
  split at hf
  · cases hf
  · rename_i ss o9 hg1
    split at hf
    · rename_i e2 hfb
      cases hf
      exact ⟨_, find_bpp_err _ _ hfb⟩
    · cases hf
    · rename_i bpp hfb
      split at hf
      · cases hf
      · rename_i ss2 o15 hg2
        exact absurd hf (attachUserData_ne_err _ _ _ _)

/-- C4, status corrected: Header::read fails with TrueColorAndPaletteFound
exactly when the parsed fields carry palette_size > 0 together with a
normalized bit depth above 8; consequently every accepted header with a
palette has bit depth 4 or 8.  The other direction of the claimed
invariant is not checked: a header with palette_size = 0 and bit depth 4
or 8 passes Header::read (see c4_indexed_without_palette_cex). -/
theorem c4_palette_depth_check_amended :
    ∀ (buffer : List Nat) (offset : Nat),
      (Frame.Header.read buffer offset = .err .TrueColorAndPaletteFound ↔
        ∃ h o, Frame.Header.readFields buffer offset = .ok (h, o) ∧
          h.palette_size > 0 ∧ h.bpp > 8) ∧
      (∀ h o, Frame.Header.read buffer offset = .ok (h, o) →
        (h.bpp = 4 ∨ h.bpp = 8 ∨ h.bpp = 16 ∨ h.bpp = 24 ∨ h.bpp = 32) ∧
        (h.palette_size > 0 → h.bpp = 4 ∨ h.bpp = 8)) := by
  intro buffer offset
  constructor
  · constructor
    · intro hr
      rw [Frame.Header.read.eq_def] at hr
      split at hr
      · rename_i result o2 hrf
        split at hr
        · rename_i hc
          exact ⟨result, o2, hrf, hc.1, hc.2⟩
        · cases hr
      · rename_i e hrf
        cases hr
        obtain ⟨n, hn⟩ := readFields_err_bpp _ _ _ hrf
        cases hn
      · cases hr
    · rintro ⟨h, o, hrf, hp, hb⟩
      rw [Frame.Header.read.eq_def, hrf]
      dsimp only
      rw [if_pos ⟨hp, hb⟩]
  · intro h o hr
    rw [Frame.Header.read.eq_def] at hr
    split at hr
    · rename_i result o2 hrf
      split at hr
      · cases hr
      · rename_i hc
        cases hr
        obtain ⟨n, hn⟩ := readFields_ok_bpp _ _ _ _ hrf
        have hmem := find_bpp_mem _ _ hn
        refine ⟨hmem, fun hp => ?_⟩
        have : ¬ h.bpp > 8 := fun hb => hc ⟨hp, hb⟩
        omega
    · cases hr
    · cases hr

/-- Concrete 49-byte buffer: a frame header declaring palette_size = 0
with bpp code 5 (8-bpp indexed), followed by 1 payload byte. -/
def c4buf : List Nat :=
  [0,0,0,0, 0,0,0,0, 1,0,0,0, 48,0, 16,0, 1, 1, 0x81, 5, 1,0, 1,0,
   0,0,0,0,0,0,0,0, 0,0,0,0,0,0,0,0, 0,0,0,0, 0,0,0,0]
  ++ [7]

/-- C4 counterexample: the header of c4buf violates the claimed invariant
in its second direction (palette_size = 0 but bit depth 8, not in
{16, 24, 32}); the claim says such a header fails with
TrueColorAndPaletteFound, yet Header::read accepts it, and the frame
parse then fails with the different error InvalidColorSampleSize 1. -/
theorem c4_indexed_without_palette_cex :
    Frame.Header.read c4buf 0
      = .ok (⟨0, 0, 1, 48, 16, 1, 1, 0x81, 8, 1, 1, 0, 0, 0, 0, []⟩, 48) ∧
    Frame.read c4buf 0 = .err (.InvalidColorSampleSize 1) ∧
    (Error.InvalidColorSampleSize 1) ≠ .TrueColorAndPaletteFound := by
  decide

/-- Concrete 48-byte buffer: a frame header declaring palette_size = 32
with bpp code 3 (32-bpp true color) - spec section 8, scenario 6. -/
def c4buf2 : List Nat :=
  [0,0,0,0, 32,0,0,0, 0,0,0,0, 48,0, 16,0, 1, 1, 2, 3, 1,0, 1,0,
   0,0,0,0,0,0,0,0, 0,0,0,0,0,0,0,0, 0,0,0,0, 0,0,0,0]

theorem c4_witness :
    Frame.Header.read c4buf2 0 = .err .TrueColorAndPaletteFound :=
  (c4_palette_depth_check_amended c4buf2 0).1.mpr
    ⟨⟨0, 32, 0, 48, 16, 1, 1, 2, 32, 1, 1, 0, 0, 0, 0, []⟩, 48,
      by decide, by decide, by decide⟩

lemma attachUserData_underflow_panic (buffer : List Nat) (o15 : Nat) (result : Frame.Header)
    (hlen : buffer.length < 2 ^ 64) (ho : 48 ≤ o15) (hs : result.header_size < 48) :
    Frame.Header.attachUserData buffer o15 result = .panic := by
  rw [Frame.Header.attachUserData.eq_def]
  dsimp only
  have huds : (result.header_size + 2 ^ 64 - 48) % 2 ^ 64 = result.header_size + 2 ^ 64 - 48 :=
    Nat.mod_eq_of_lt (by omega)
  rw [huds, if_pos (by omega), get_slice_fails _ _ _ (by omega)]

lemma mapped_slice_getD (buffer : List Nat) (o sz j : Nat) (hj : j < sz) :
    (((buffer.drop o).take sz).map (· % 256)).getD j 0 = buffer.getD (o + j) 0 % 256 := by
  rw [List.getD_eq_getElem?_getD, List.getElem?_map, List.getElem?_take, if_pos hj,
    List.getElem?_drop, List.getD_eq_getElem?_getD]
  cases h : buffer[o + j]? <;> simp [h]

/-- C9, status corrected: on any buffer (shorter than the 2 ^ 64-byte
usize range) holding at least 48 readable header bytes whose bpp code is
valid and whose header_size field is below 48, the usize subtraction
header_size - 48 underflows and Header::read aborts - it returns no Error
value.  The unqualified claim fails when the bpp code is invalid: the ?
on find_bpp returns the Error InvalidBppFormat before the subtraction is
reached (see c9_invalid_bpp_code_cex). -/
theorem c9_header_size_underflow_amended :
    ∀ (buffer : List Nat) (offset : Nat) (bpp : Nat),
      buffer.length < 2 ^ 64 →
      offset + 48 ≤ buffer.length →
      Frame.Header.find_bpp (buffer.getD (offset + 19) 0 % 256) = .ok bpp →
      buffer.getD (offset + 12) 0 % 256 + 256 * (buffer.getD (offset + 13) 0 % 256) < 48 →
      Frame.Header.readFields buffer offset = .panic ∧
      Frame.Header.read buffer offset = .panic := by
  intro buffer offset bpp hlen h48 hbpp hhs
  have hhs3 : read_u16_le ((slices_of buffer offset [4, 4, 4, 2, 2, 1, 1, 1, 1]).getD 3 []) < 48 := by
    have he : (slices_of buffer offset [4, 4, 4, 2, 2, 1, 1, 1, 1]).getD 3 []
        = ((buffer.drop (offset + 12)).take 2).map (· % 256) := rfl
    rw [he, read_u16_le, mapped_slice_getD buffer (offset + 12) 2 0 (by omega),
      mapped_slice_getD buffer (offset + 12) 2 1 (by omega),
      show offset + 12 + 0 = offset + 12 from by omega,
      show offset + 12 + 1 = offset + 13 from by omega]
    exact hhs
  have hb19 : ((slices_of buffer offset [4, 4, 4, 2, 2, 1, 1, 1, 1]).getD 8 []).getD 0 0
      = buffer.getD (offset + 19) 0 % 256 := by
    have he : (slices_of buffer offset [4, 4, 4, 2, 2, 1, 1, 1, 1]).getD 8 []
        = ((buffer.drop (offset + 19)).take 1).map (· % 256) := rfl
    rw [he, mapped_slice_getD buffer (offset + 19) 1 0 (by omega), Nat.add_zero]
  have hfields : Frame.Header.readFields buffer offset = .panic := by
    rw [Frame.Header.readFields.eq_def]
    rw [get_slices_eq buffer [4, 4, 4, 2, 2, 1, 1, 1, 1] offset (by simp)]
    have hc1 : offset + [4, 4, 4, 2, 2, 1, 1, 1, 1].sum ≤ buffer.length := by
      simp only [List.sum_cons, List.sum_nil]
      omega
    rw [if_pos hc1]
    dsimp only
    rw [hb19, hbpp]
    dsimp only
    rw [get_slices_eq buffer [2, 2, 8, 8, 4, 4] (offset + [4, 4, 4, 2, 2, 1, 1, 1, 1].sum) (by simp)]
    have hc2 : offset + [4, 4, 4, 2, 2, 1, 1, 1, 1].sum + [2, 2, 8, 8, 4, 4].sum ≤ buffer.length := by
      simp only [List.sum_cons, List.sum_nil]
      omega
    rw [if_pos hc2]
    dsimp only
    exact attachUserData_underflow_panic buffer _ _ hlen
      (by simp only [List.sum_cons, List.sum_nil]; omega) hhs3
  refine ⟨hfields, ?_⟩
  rw [Frame.Header.read.eq_def, hfields]

/-- Concrete 48-byte buffer: header_size field = 0 (< 48), valid bpp
code 5. -/
def c9buf : List Nat :=
  [0,0,0,0, 0,0,0,0, 1,0,0,0, 0,0, 16,0, 1, 1, 0x81, 5, 1,0, 1,0,
   0,0,0,0,0,0,0,0, 0,0,0,0,0,0,0,0, 0,0,0,0, 0,0,0,0]

/-- Concrete 48-byte buffer: header_size field = 0 (< 48) but bpp code 9,
which is invalid. -/
def c9buf2 : List Nat :=
  [0,0,0,0, 0,0,0,0, 1,0,0,0, 0,0, 16,0, 1, 1, 0x81, 9, 1,0, 1,0,
   0,0,0,0,0,0,0,0, 0,0,0,0,0,0,0,0, 0,0,0,0, 0,0,0,0]

/-- C9 counterexample: this header declares header_size = 0 < 48, yet
Header::read DOES return an Error value - InvalidBppFormat 9 - because
the bpp code is checked before the user-data subtraction is reached; the
claim quantifies over every input with header_size < 48 and asserts no
Error value is ever returned. -/
theorem c9_invalid_bpp_code_cex :
    (c9buf2.getD 12 0 + 256 * c9buf2.getD 13 0 < 48) ∧
    Frame.Header.read c9buf2 0 = .err (.InvalidBppFormat 9) ∧
    Frame.Header.read c9buf2 0 ≠ .panic := by
  decide

theorem c9_witness : Frame.Header.read c9buf 0 = .panic :=
  (c9_header_size_underflow_amended c9buf 0 8 (by decide) (by decide)
    (by decide) (by decide)).2

lemma get_slice_some_inv (buffer : List Nat) (offset sz : Nat) (s : List Nat) (o2 : Nat)
    (h : get_slice buffer offset sz = some (s, o2)) :
    s.length = sz ∧ o2 = offset + sz ∧ offset + sz ≤ buffer.length := by
  rw [get_slice] at h
  split at h
  · rename_i hle
    simp only [Option.some.injEq, Prod.mk.injEq] at h
    obtain ⟨h1, h2⟩ := h
    refine ⟨?_, h2.symm, hle⟩
    rw [← h1]
    simp only [List.length_map, List.length_take, List.length_drop]
    omega
  · cases h

lemma unswizzle_go_ok_length {α : Type} (buffer : List α) (w ht : Nat) :
    ∀ (cells : List (Nat × Nat)) (i : Nat) (res out : List α),
      Frame.unswizzle_go buffer w ht cells i res = .ok out → out.length = res.length := by
  intro cells
  induction cells with
  | nil =>
    intro i res out h
    simp only [Frame.unswizzle_go] at h
    cases h
    rfl
  | cons c rest ih =>
    intro i res out h
    obtain ⟨ty, tx⟩ := c
    simp only [Frame.unswizzle_go] at h
    split at h
    · split at h
      · rename_i v hb
        split at h
        · rw [ih _ _ _ h, List.length_set]
        · cases h
      · exact ih _ _ _ h
    · exact ih _ _ _ h

lemma unswizzle_ok_length {α : Type} [Inhabited α] (buffer : List α) (hdr : Frame.Header)
    (out : List α) (h : Frame.unswizzle buffer hdr = .ok out) : out.length = buffer.length := by
  rw [Frame.unswizzle] at h
  rw [unswizzle_go_ok_length _ _ _ _ _ _ _ h, List.length_replicate]

lemma nibble_pairs_length (l : List Nat) :
    (l.flatMap (fun b => [b &&& (0xF0 >>> 4), b &&& 0xF])).length = 2 * l.length := by
  induction l with
  | nil => rfl
  | cons b rest ih =>
    rw [List.flatMap_cons, List.length_append, ih, List.length_cons]
    simp only [List.length_cons, List.length_nil]
    omega

lemma header_read_ok_inv (buffer : List Nat) (offset : Nat) (h : Frame.Header) (o : Nat)
    (hr : Frame.Header.read buffer offset = .ok (h, o)) :
    Frame.Header.readFields buffer offset = .ok (h, o) ∧
    ¬ (h.palette_size > 0 ∧ h.bpp > 8) := by
  rw [Frame.Header.read.eq_def] at hr
  split at hr
  · rename_i result o2 hrf
    split at hr
    · cases hr
    · rename_i hc
      cases hr
      exact ⟨hrf, hc⟩
  · cases hr
  · cases hr

lemma read_data_len (buffer : List Nat) (offset : Nat) (header : Frame.Header)
    (data : DataKind) (o2 : Nat)
    (hp : header.palette_size > 0 → ¬ header.bpp > 8)
    (hmem : header.bpp = 4 ∨ header.bpp = 8 ∨ header.bpp = 16 ∨ header.bpp = 24 ∨ header.bpp = 32)
    (h : Frame.read_data buffer offset header = .ok (data, o2)) :
    data.len = (if header.bpp = 4 then 2 * header.image_size
                else header.image_size / (header.bpp / 8)) ∧
    (header.bpp > 8 → (header.bpp / 8) ∣ header.image_size) := by
  rw [Frame.read_data.eq_def] at h
  dsimp only at h
  split at h
  · cases h
  · rename_i slice o1 hgs
    obtain ⟨hslen, ho1, hle⟩ := get_slice_some_inv _ _ _ _ _ hgs
    split at h
    · rename_i hpal
      have hb8 : ¬ header.bpp > 8 := hp hpal
      have case_len : ∀ (u : List Nat),
          u.length = (if header.bpp = 4 then
              (slice.flatMap (fun index_pair => [index_pair &&& (0xF0 >>> 4), index_pair &&& 0xF]))
            else slice).length →
          (DataKind.Indices u).len
            = (if header.bpp = 4 then 2 * header.image_size
               else header.image_size / (header.bpp / 8)) := by
        intro u hu
        by_cases hb4 : header.bpp = 4
        · simp only [if_pos hb4] at hu ⊢
          simp only [DataKind.len]
          rw [hu, nibble_pairs_length, hslen]
        · simp only [if_neg hb4] at hu ⊢
          simp only [DataKind.len]
          have hb8x : header.bpp = 8 := by omega
          rw [hu, hslen, hb8x]
          omega
      split at h
      · cases hu : Frame.unswizzle
            (if header.bpp = 4 then
              slice.flatMap (fun index_pair => [index_pair &&& (0xF0 >>> 4), index_pair &&& 0xF])
            else slice) header with
        | ok u =>
          rw [hu] at h
          simp only [Res.map_ok, Res.ok.injEq, Prod.mk.injEq] at h
          obtain ⟨hd, _⟩ := h
          subst hd
          exact ⟨case_len u (unswizzle_ok_length _ _ _ hu), fun hgt => absurd hgt hb8⟩
        | err e => rw [hu] at h; cases h
        | panic => rw [hu] at h; cases h
      · simp only [Res.ok.injEq, Prod.mk.injEq] at h
        obtain ⟨hd, _⟩ := h
        subst hd
        exact ⟨case_len _ rfl, fun hgt => absurd hgt hb8⟩
    · rename_i hpal
      split at h
      · rename_i colors hrc
        have hb4 : ¬ header.bpp = 4 := by
          intro hb4
          rw [Frame.read_colors] at hrc
          rw [if_pos (by rw [hb4])] at hrc
          cases hrc
        obtain ⟨hclen, hdvd, hcs⟩ := read_colors_spec _ _ _ hrc
        rw [if_neg hb4, hslen] at hclen hdvd
        split at h
        · cases hu : Frame.unswizzle colors header with
          | ok u =>
            rw [hu] at h
            simp only [Res.map_ok, Res.ok.injEq, Prod.mk.injEq] at h
            obtain ⟨hd, _⟩ := h
            subst hd
            have hulen := unswizzle_ok_length _ _ _ hu
            refine ⟨?_, fun _ => hdvd⟩
            rw [if_neg hb4]
            simp only [DataKind.len]
            rw [hulen, hclen]
          | err e => rw [hu] at h; cases h
          | panic => rw [hu] at h; cases h
        · simp only [Res.ok.injEq, Prod.mk.injEq] at h
          obtain ⟨hd, _⟩ := h
          subst hd
          refine ⟨?_, fun _ => hdvd⟩
          rw [if_neg hb4]
          simp only [DataKind.len]
          rw [hclen]
      · cases h
      · cases h

lemma frame_read_data_len (buffer : List Nat) (offset : Nat) (fr : Frame) (o2 : Nat)
    (h : Frame.read buffer offset = .ok (fr, o2)) :
    fr.data.len = (if fr.header.bpp = 4 then 2 * fr.header.image_size
                   else fr.header.image_size / (fr.header.bpp / 8)) ∧
    (fr.header.bpp > 8 → (fr.header.bpp / 8) ∣ fr.header.image_size) := by
  rw [Frame.read.eq_def] at h
  split at h
  · rename_i header o1 hhr
    split at h
    · rename_i data od hrd
      split at h
      · rename_i pals op hrp
        cases h
        obtain ⟨hrf, hc⟩ := header_read_ok_inv _ _ _ _ hhr
        obtain ⟨n, hn⟩ := readFields_ok_bpp _ _ _ _ hrf
        have hmem := find_bpp_mem _ _ hn
        exact read_data_len _ _ _ _ _ (fun hp hb => hc ⟨hp, hb⟩) hmem hrd
      · cases h
      · cases h
    · cases h
    · cases h
  · cases h
  · cases h

lemma frames_go_mem (buffer : List Nat) :
    ∀ (n offset : Nat) (frames : List Frame) (o2 : Nat),
      Image.frames_go buffer n offset = .ok (frames, o2) →
      ∀ fr ∈ frames, ∃ o o3, Frame.read buffer o = .ok (fr, o3) := by
  intro n
  induction n with
  | zero =>
    intro offset frames o2 h fr hmem
    simp only [Image.frames_go] at h
    cases h
    simp at hmem
  | succ n ih =>
    intro offset frames o2 h fr hmem
    simp only [Image.frames_go] at h
    split at h
    · rename_i frame o1 hfr
      cases hgo : Image.frames_go buffer n o1 with
      | ok p =>
        rw [hgo] at h
        simp only [Res.map_ok, Res.ok.injEq, Prod.mk.injEq] at h
        obtain ⟨h1, _⟩ := h
        subst h1
        rcases List.mem_cons.mp hmem with h2 | h2
        · subst h2
          exact ⟨offset, o1, hfr⟩
        · exact ih o1 p.1 p.2 (by rw [hgo]) fr h2
      | err e => rw [hgo] at h; cases h
      | panic => rw [hgo] at h; cases h
    · cases h
    · cases h

/-- C5, status corrected: for every successfully decoded image, each
frame's data length is determined by image_size and the bit depth - twice
image_size for 4-bpp (two indices per payload byte), image_size for
8-bpp, image_size / (bpp/8) samples for true color (where bpp/8 divides
image_size on success) - and NOT by width * height, which the decoder
never checks against the payload (see c5_len_not_width_height_cex). -/
theorem c5_frame_data_length_amended :
    ∀ (buffer : List Nat) (img : Image), Image.read buffer 0 = .ok img →
      ∀ fr ∈ img.frames,
        fr.data.len = (if fr.header.bpp = 4 then 2 * fr.header.image_size
                       else fr.header.image_size / (fr.header.bpp / 8)) ∧
        (fr.header.bpp > 8 → (fr.header.bpp / 8) ∣ fr.header.image_size) := by
  intro buffer img h fr hmem
  rw [Image.read.eq_def] at h
  split at h
  · rename_i ihdr o1 hih
    cases hgo : Image.frames_go buffer ihdr.count o1 with
    | ok p =>
      rw [hgo] at h
      simp only [Res.map_ok, Res.ok.injEq] at h
      subst h
      obtain ⟨o, o3, hfr⟩ := frames_go_mem buffer ihdr.count o1 p.1 p.2 (by rw [hgo]) fr hmem
      exact frame_read_data_len _ _ _ _ hfr
    | err e => rw [hgo] at h; cases h
    | panic => rw [hgo] at h; cases h
  · cases h
  · cases h

/-- Concrete 98-byte TIM2 container: magic, version 0, one frame; the
frame is 8-bpp, 1 x 1, with image_size = 2 (two payload bytes) and one
32-byte palette. -/
def c5img : List Nat :=
  [0x54, 0x49, 0x4D, 0x32, 0,0, 1,0, 0,0,0,0,0,0,0,0]
  ++ [0,0,0,0, 32,0,0,0, 2,0,0,0, 48,0, 16,0, 1, 1, 0x81, 5, 1,0, 1,0,
      0,0,0,0,0,0,0,0, 0,0,0,0,0,0,0,0, 0,0,0,0, 0,0,0,0]
  ++ [7, 7] ++ List.replicate 32 0

/-- C5 counterexample: the container c5img decodes successfully and its
only frame carries 2 data bytes although width * height = 1. -/
theorem c5_len_not_width_height_cex :
    (Image.read c5img 0).map (fun img =>
      img.frames.map (fun fr => (fr.data.len, fr.width, fr.height)))
      = .ok [(2, 1, 1)] ∧ (2 : Nat) ≠ 1 * 1 := by
  decide

/-- Header of the frame in c5img. -/
def c5hdr : Frame.Header :=
  { total_size := 0, palette_size := 32, image_size := 2, header_size := 48,
    color_entry_count := 16, paletted := 1, mipmap_count := 1, clut_format := 0x81,
    bpp := 8, width := 1, height := 1, gs_regs := 0, gs_tex_clut := 0,
    gs_tex_0 := 0, gs_tex_1 := 0, user_data := [] }

/-- The frame value decoded from c5img. -/
def c5frame : Frame :=
  ⟨c5hdr, .Indices [7, 7], [List.replicate 16 ⟨0, 0, 0, 0⟩]⟩

theorem c5_witness :
    c5frame.data.len = (if c5frame.header.bpp = 4 then 2 * c5frame.header.image_size
      else c5frame.header.image_size / (c5frame.header.bpp / 8)) :=
  (c5_frame_data_length_amended c5img
    ⟨⟨0x54494D32, 0, 1⟩, [c5frame]⟩ (by decide) c5frame (List.mem_cons_self _ _)).1

lemma from_buf_err (l : List Nat) (e : Error) (h : Pixel.from_buf l = .err e) :
    ∃ n, e = .InvalidColorSampleSize n := by
  rw [Pixel.from_buf.eq_def] at h
  split at h <;> (try cases h)
  exact ⟨_, rfl⟩

lemma read_colors_go_err (buffer : List Nat) (cs : Nat) :
    ∀ (n offset : Nat) (e : Error),
      Frame.read_colors_go buffer cs n offset = .err e →
      ∃ k, e = .InvalidColorSampleSize k := by
  intro n
  induction n with
  | zero =>
    intro offset e h
    simp only [Frame.read_colors_go] at h
    cases h
  | succ n ih =>
    intro offset e h
    simp only [Frame.read_colors_go] at h
    split at h
    · cases h
    · rename_i slice o2 hgs
      split at h
      · rename_i p hfb
        cases hgo : Frame.read_colors_go buffer cs n o2 with
        | ok l => rw [hgo] at h; cases h
        | err e2 => rw [hgo] at h; cases h; exact ih o2 e hgo
        | panic => rw [hgo] at h; cases h
      · rename_i e2 hfb
        cases h
        exact from_buf_err _ _ hfb
      · cases h

lemma read_colors_err (buffer : List Nat) (cs : Nat) (e : Error)
    (h : Frame.read_colors buffer cs = .err e) : ∃ k, e = .InvalidColorSampleSize k := by
  rw [Frame.read_colors] at h
  split at h
  · cases h
  · exact read_colors_go_err _ _ _ _ _ h

lemma unswizzle_go_ne_err {α : Type} (buffer : List α) (w ht : Nat) :
    ∀ (cells : List (Nat × Nat)) (i : Nat) (res : List α) (e : Error),
      Frame.unswizzle_go buffer w ht cells i res ≠ .err e := by
  intro cells
  induction cells with
  | nil =>
    intro i res e h
    simp only [Frame.unswizzle_go] at h
    cases h
  | cons c rest ih =>
    intro i res e h
    obtain ⟨ty, tx⟩ := c
    simp only [Frame.unswizzle_go] at h
    split at h
    · split at h
      · rename_i v hb
        split at h
        · exact ih _ _ _ h
        · cases h
      · exact ih _ _ _ h
    · exact ih _ _ _ h

lemma read_data_err (buffer : List Nat) (offset : Nat) (header : Frame.Header) (e : Error)
    (h : Frame.read_data buffer offset header = .err e) :
    ∃ k, e = .InvalidColorSampleSize k := by
  rw [Frame.read_data.eq_def] at h
  dsimp only at h
  split at h
  · cases h
  · rename_i slice o1 hgs
    split at h
    · split at h
      · cases hu : Frame.unswizzle
            (if header.bpp = 4 then
              slice.flatMap (fun index_pair => [index_pair &&& (0xF0 >>> 4), index_pair &&& 0xF])
            else slice) header with
        | ok u => rw [hu] at h; cases h
        | err e2 => exact absurd hu (unswizzle_go_ne_err _ _ _ _ _ _ _)
        | panic => rw [hu] at h; cases h
      · cases h
    · split at h
      · rename_i colors hrc
        split at h
        · cases hu : Frame.unswizzle colors header with
          | ok u => rw [hu] at h; cases h
          | err e2 => exact absurd hu (unswizzle_go_ne_err _ _ _ _ _ _ _)
          | panic => rw [hu] at h; cases h
        · cases h
      · rename_i e2 hrc
        cases h
        exact read_colors_err _ _ _ hrc
      · cases h

lemma palettes_go_err (slice : List Nat) (size : Nat) (header : Frame.Header) :
    ∀ (idxs : List Nat) (e : Error),
      Frame.palettes_go slice size header idxs = .err e →
      ∃ k, e = .InvalidColorSampleSize k := by
  intro idxs
  induction idxs with
  | nil =>
    intro e h
    simp only [Frame.palettes_go] at h
    cases h
  | cons i rest ih =>
    intro e h
    simp only [Frame.palettes_go] at h
    split at h
    · split at h
      · rename_i pal hrc
        cases hgo : Frame.palettes_go slice size header rest with
        | ok l => rw [hgo] at h; cases h
        | err e2 => rw [hgo] at h; cases h; exact ih e hgo
        | panic => rw [hgo] at h; cases h
      · rename_i e2 hrc
        cases h
        exact read_colors_err _ _ _ hrc
      · cases h
    · cases h

lemma read_palettes_err (buffer : List Nat) (offset : Nat) (header : Frame.Header) (e : Error)
    (h : Frame.read_palettes buffer offset header = .err e) :
    ∃ k, e = .InvalidColorSampleSize k := by
  rw [Frame.read_palettes.eq_def] at h
  dsimp only at h
  split at h
  · cases h
  · split at h
    · cases h
    · rename_i slice o1 hgs
      split at h
      · cases h
      · cases hgo : Frame.palettes_go slice (header.color_entry_count * header.color_size)
            header (List.range (header.palette_size / (header.color_entry_count * header.color_size))) with
        | ok l => rw [hgo] at h; cases h
        | err e2 => rw [hgo] at h; cases h; exact palettes_go_err _ _ _ _ _ hgo
        | panic => rw [hgo] at h; cases h

lemma header_read_err (buffer : List Nat) (offset : Nat) (e : Error)
    (h : Frame.Header.read buffer offset = .err e) :
    e = .TrueColorAndPaletteFound ∨ ∃ n, e = .InvalidBppFormat n := by
  rw [Frame.Header.read.eq_def] at h
  split at h
  · rename_i result o2 hrf
    split at h
    · cases h
      exact Or.inl rfl
    · cases h
  · rename_i e2 hrf
    cases h
    exact Or.inr (readFields_err_bpp _ _ _ hrf)
  · cases h

lemma frame_read_err (buffer : List Nat) (offset : Nat) (e : Error)
    (h : Frame.read buffer offset = .err e) :
    e = .TrueColorAndPaletteFound ∨ (∃ n, e = .InvalidBppFormat n) ∨
    (∃ n, e = .InvalidColorSampleSize n) := by
  rw [Frame.read.eq_def] at h
  split at h
  · rename_i header o1 hhr
    split at h
    · rename_i data od hrd
      split at h
      · cases h
      · rename_i e2 hrp
        cases h
        exact Or.inr (Or.inr (read_palettes_err _ _ _ _ hrp))
      · cases h
    · rename_i e2 hrd
      cases h
      exact Or.inr (Or.inr (read_data_err _ _ _ _ hrd))
    · cases h
  · rename_i e2 hhr
    cases h
    rcases header_read_err _ _ _ hhr with h1 | h1
    · exact Or.inl h1
    · exact Or.inr (Or.inl h1)
  · cases h

lemma frames_go_err (buffer : List Nat) :
    ∀ (n offset : Nat) (e : Error),
      Image.frames_go buffer n offset = .err e →
      e = .TrueColorAndPaletteFound ∨ (∃ k, e = .InvalidBppFormat k) ∨
      (∃ k, e = .InvalidColorSampleSize k) := by
  intro n
  induction n with
  | zero =>
    intro offset e h
    simp only [Image.frames_go] at h
    cases h
  | succ n ih =>
    intro offset e h
    simp only [Image.frames_go] at h
    split at h
    · rename_i frame o1 hfr
      cases hgo : Image.frames_go buffer n o1 with
      | ok p => rw [hgo] at h; cases h
      | err e2 => rw [hgo] at h; cases h; exact ih o1 e hgo
      | panic => rw [hgo] at h; cases h
    · rename_i e2 hfr
      cases h
      exact frame_read_err _ _ _ hfr
    · cases h

lemma image_header_read_err_iff (buffer : List Nat) (offset : Nat) (e : Error) :
    Image.Header.read buffer offset = .err e ↔
      offset + 16 ≤ buffer.length ∧
      e = .InvalidIdentifier (read_u32_be (((buffer.drop offset).take 4).map (· % 256))) ∧
      read_u32_be (((buffer.drop offset).take 4).map (· % 256)) ≠ IDENT := by
  by_cases h16 : offset + 16 ≤ buffer.length
  · have heval : Image.Header.read buffer offset =
        (if read_u32_be (((buffer.drop offset).take 4).map (· % 256)) ≠ IDENT then
          .err (.InvalidIdentifier (read_u32_be (((buffer.drop offset).take 4).map (· % 256))))
        else
          .ok (⟨read_u32_be (((buffer.drop offset).take 4).map (· % 256)),
            read_u16_le (((buffer.drop (offset + 4)).take 2).map (· % 256)),
            read_u16_le (((buffer.drop (offset + 4 + 2)).take 2).map (· % 256))⟩,
            offset + 4 + 2 + 2 + 8)) := by
      rw [Image.Header.read.eq_def]
      rw [get_slice_succeeds buffer offset 4 (by omega)]
      dsimp only
      rw [get_slice_succeeds buffer (offset + 4) 2 (by omega)]
      dsimp only
      rw [get_slice_succeeds buffer (offset + 4 + 2) 2 (by omega)]
      dsimp only
      rw [get_slice_succeeds buffer (offset + 4 + 2 + 2) 8 (by omega)]
    rw [heval]
    by_cases hid : read_u32_be (((buffer.drop offset).take 4).map (· % 256)) ≠ IDENT
    · rw [if_pos hid]
      constructor
      · intro hh
        cases hh
        exact ⟨h16, rfl, hid⟩
      · rintro ⟨_, he, _⟩
        rw [he]
    · rw [if_neg hid]
      constructor
      · intro hh; cases hh
      · rintro ⟨_, _, hc⟩
        exact absurd hc hid
  · have heval : Image.Header.read buffer offset = .panic := by
      rw [Image.Header.read.eq_def]
      by_cases h4 : offset + 4 ≤ buffer.length
      · rw [get_slice_succeeds buffer offset 4 h4]
        dsimp only
        by_cases h6 : offset + 4 + 2 ≤ buffer.length
        · rw [get_slice_succeeds buffer (offset + 4) 2 h6]
          dsimp only
          by_cases h8 : offset + 4 + 2 + 2 ≤ buffer.length
          · rw [get_slice_succeeds buffer (offset + 4 + 2) 2 h8]
            dsimp only
            rw [get_slice_fails buffer (offset + 4 + 2 + 2) 8 (by omega)]
          · rw [get_slice_fails buffer (offset + 4 + 2) 2 h8]
        · rw [get_slice_fails buffer (offset + 4) 2 h6]
      · rw [get_slice_fails buffer offset 4 h4]
    rw [heval]
    constructor
    · intro hh; cases hh
    · rintro ⟨hc, _, _⟩
      exact absurd hc h16

/-- C8, status corrected: parsing fails with InvalidIdentifier(m) if and
only if the input holds at least the 16 container-header bytes and its
first four bytes, read as a big-endian u32 m, differ from 0x54494D32 -
the magic check runs only after the version, count and reserved reads, so
an input shorter than 16 bytes aborts in the byte reader before the check
is reached (see c8_short_input_cex), while a 16-byte zero input does fail
with InvalidIdentifier(0). -/
theorem c8_invalid_identifier_amended :
    ∀ (buffer : List Nat) (m : Nat),
      Image.read buffer 0 = .err (.InvalidIdentifier m) ↔
        (16 ≤ buffer.length ∧
         m = read_u32_be ((buffer.take 4).map (· % 256)) ∧
         read_u32_be ((buffer.take 4).map (· % 256)) ≠ IDENT) := by
  intro buffer m
  constructor
  · intro h
    rw [Image.read.eq_def] at h
    split at h
    · rename_i ihdr o1 hih
      cases hgo : Image.frames_go buffer ihdr.count o1 with
      | ok p => rw [hgo] at h; cases h
      | err e2 =>
        rw [hgo] at h
        cases h
        rcases frames_go_err _ _ _ _ hgo with h1 | ⟨k, h1⟩ | ⟨k, h1⟩ <;> cases h1
      | panic => rw [hgo] at h; cases h
    · rename_i e2 hih
      cases h
      obtain ⟨h16, he, hne⟩ := (image_header_read_err_iff buffer 0 _).mp hih
      cases he
      exact ⟨by omega, rfl, hne⟩
    · cases h
  · rintro ⟨h16, hm, hne⟩
    have hih : Image.Header.read buffer 0 = .err (.InvalidIdentifier m) := by
      apply (image_header_read_err_iff buffer 0 _).mpr
      exact ⟨by omega, by rw [hm]; rfl, hne⟩
    rw [Image.read.eq_def, hih]

/-- C8 counterexample: the four-byte input 00 00 00 00 begins with a bad
magic yet does not fail with InvalidIdentifier(0) - the reader aborts on
the version read before the magic is checked. -/
theorem c8_short_input_cex :
    Image.read [0, 0, 0, 0] 0 = .panic ∧
    (Res.panic : Res Image) ≠ .err (.InvalidIdentifier 0) := by
  decide

theorem c8_witness :
    Image.read (List.replicate 16 0) 0 = .err (.InvalidIdentifier 0) :=
  (c8_invalid_identifier_amended (List.replicate 16 0) 0).mpr
    ⟨by decide, by decide, by decide⟩

/-- Closed form of the running source cursor of Frame::unswizzle, stated
from the claim's words: tiles are walked in row-major order (a full 16 x 8
tile contributes 128 cursor steps whether or not its cells are written),
and within a tile the cursor advances once per (tile_y, tile_x) cell.
For the cell (ty, tx) the cursor value is the number of cells visited
before it. -/
def swizzleCursorIndex (w tx ty : Nat) : Nat :=
  ((ty / 8) * ((w + 15) / 16) + tx / 16) * 128 + (ty % 8) * 16 + tx % 16

/-- The cell visited at cursor position n by the loops of
Frame::unswizzle. -/
def swizzleCellOf (w n : Nat) : Nat × Nat :=
  (8 * (n / 128 / ((w + 15) / 16)) + n % 128 / 16,
   16 * (n / 128 % ((w + 15) / 16)) + n % 16)

lemma tile_cells_eq (w h : Nat) :
    tile_cells w h =
      (List.range (((h + 7) / 8) * (((w + 15) / 16) * 128))).map (swizzleCellOf w) := by
  unfold tile_cells
  have step1 : ∀ ry rx : Nat,
      (List.range 8).flatMap (fun dy => (List.range 16).map fun dx => (8 * ry + dy, 16 * rx + dx))
        = (List.range 128).map (fun m => (8 * ry + m / 16, 16 * rx + m % 16)) := by
    intro ry rx
    have h := flatMap_range_map 16 (fun dy dx => (8 * ry + dy, 16 * rx + dx)) 8
    simpa using h
  have step2 : ∀ ry : Nat,
      (List.range ((w + 15) / 16)).flatMap
          (fun rx => (List.range 128).map (fun m => (8 * ry + m / 16, 16 * rx + m % 16)))
        = (List.range (((w + 15) / 16) * 128)).map
            (fun m => (8 * ry + m % 128 / 16, 16 * (m / 128) + m % 128 % 16)) := by
    intro ry
    have h := flatMap_range_map 128 (fun rx m => (8 * ry + m / 16, 16 * rx + m % 16)) ((w + 15) / 16)
    simpa using h
  rw [List.flatMap_congr (fun ry _ => by rw [List.flatMap_congr (fun rx _ => step1 ry rx), step2 ry])]
  have h3 := flatMap_range_map (((w + 15) / 16) * 128)
    (fun ry m => (8 * ry + m % 128 / 16, 16 * (m / 128) + m % 128 % 16)) ((h + 7) / 8)
  rw [h3]
  apply List.map_congr_left
  intro m _
  unfold swizzleCellOf
  have e1 : m % ((w + 15) / 16 * 128) % 128 = m % 128 :=
    Nat.mod_mod_of_dvd m ⟨(w + 15) / 16, Nat.mul_comm _ 128⟩
  have e2 : m % ((w + 15) / 16 * 128) / 128 = m / 128 % ((w + 15) / 16) := by
    rw [Nat.mul_comm ((w + 15) / 16) 128]
    exact Nat.mod_mul_right_div_self m 128 ((w + 15) / 16)
  have e3 : m / ((w + 15) / 16 * 128) = m / 128 / ((w + 15) / 16) := by
    rw [Nat.div_div_eq_div_mul, Nat.mul_comm 128 ((w + 15) / 16)]
  have e4 : m % 128 % 16 = m % 16 := Nat.mod_mod_of_dvd m (by norm_num)
  rw [e1, e2, e3, e4]

lemma unswizzle_go_total {α : Type} (buffer : List α) (w ht : Nat) :
    ∀ (cells : List (Nat × Nat)) (i : Nat) (res : List α),
      (∀ c ∈ cells, c.2 < w → c.1 < ht → c.1 * w + c.2 < res.length) →
      ∃ out, Frame.unswizzle_go buffer w ht cells i res = .ok out := by
  intro cells
  induction cells with
  | nil =>
    intro i res _
    exact ⟨res, rfl⟩
  | cons c rest ih =>
    intro i res hb
    obtain ⟨ty, tx⟩ := c
    simp only [Frame.unswizzle_go]
    by_cases hin : tx < w ∧ ty < ht
    · rw [if_pos hin]
      split
      · rename_i v hv
        have hd : ty * w + tx < res.length := hb (ty, tx) (List.mem_cons_self _ _) hin.1 hin.2
        rw [if_pos hd]
        refine ih (i + 1) (res.set (ty * w + tx) v) ?_
        intro c hc h1 h2
        rw [List.length_set]
        exact hb c (List.mem_cons_of_mem _ hc) h1 h2
      · exact ih (i + 1) res (fun c hc h1 h2 => hb c (List.mem_cons_of_mem _ hc) h1 h2)
    · rw [if_neg hin]
      exact ih (i + 1) res (fun c hc h1 h2 => hb c (List.mem_cons_of_mem _ hc) h1 h2)

lemma unswizzle_go_untouched {α : Type} (buffer : List α) (w ht : Nat) (d : Nat) :
    ∀ (cells : List (Nat × Nat)) (i : Nat) (res out : List α),
      Frame.unswizzle_go buffer w ht cells i res = .ok out →
      (∀ c ∈ cells, c.2 < w → c.1 < ht → c.1 * w + c.2 ≠ d) →
      out[d]? = res[d]? := by
  intro cells
  induction cells with
  | nil =>
    intro i res out h _
    simp only [Frame.unswizzle_go] at h
    cases h
    rfl
  | cons c rest ih =>
    intro i res out h hnd
    obtain ⟨ty, tx⟩ := c
    simp only [Frame.unswizzle_go] at h
    split at h
    · rename_i hin
      split at h
      · rename_i v hv
        split at h
        · have hne : ty * w + tx ≠ d :=
            hnd (ty, tx) (List.mem_cons_self _ _) hin.1 hin.2
          rw [ih (i + 1) _ out h (fun c hc h1 h2 => hnd c (List.mem_cons_of_mem _ hc) h1 h2)]
          exact List.getElem?_set_ne hne
        · cases h
      · exact ih (i + 1) res out h (fun c hc h1 h2 => hnd c (List.mem_cons_of_mem _ hc) h1 h2)
    · exact ih (i + 1) res out h (fun c hc h1 h2 => hnd c (List.mem_cons_of_mem _ hc) h1 h2)

lemma unswizzle_go_write {α : Type} (buffer : List α) (w ht : Nat) (ty tx : Nat)
    (hx : tx < w) (hy : ty < ht) :
    ∀ (pre post : List (Nat × Nat)) (i : Nat) (res out : List α),
      (∀ c ∈ pre, c.2 < w → c.1 < ht → c.1 * w + c.2 ≠ ty * w + tx) →
      (∀ c ∈ post, c.2 < w → c.1 < ht → c.1 * w + c.2 ≠ ty * w + tx) →
      Frame.unswizzle_go buffer w ht (pre ++ (ty, tx) :: post) i res = .ok out →
      out[ty * w + tx]? =
        match buffer[i + pre.length]? with
        | some v => some v
        | none => res[ty * w + tx]? := by
  intro pre
  induction pre with
  | nil =>
    intro post i res out _ hpost h
    rw [List.nil_append] at h
    simp only [Frame.unswizzle_go] at h
    simp only [List.length_nil, Nat.add_zero]
    split at h
    · split at h
      · rename_i v hv
        split at h
        · rename_i hd
          rw [unswizzle_go_untouched buffer w ht _ post (i + 1) _ out h hpost]
          rw [List.getElem?_set_self]
          exact hd
        · cases h
      · exact unswizzle_go_untouched buffer w ht _ post (i + 1) res out h hpost
    · rename_i hin
      exact absurd ⟨hx, hy⟩ hin
  | cons c pre' ih =>
    intro post i res out hpre hpost h
    obtain ⟨cy, cx⟩ := c
    rw [List.cons_append] at h
    simp only [Frame.unswizzle_go] at h
    have hlen : i + 1 + pre'.length = i + (pre'.length + 1) := by omega
    simp only [List.length_cons]
    split at h
    · rename_i hin
      split at h
      · rename_i v hv
        split at h
        · have := ih post (i + 1) _ out
            (fun c hc h1 h2 => hpre c (List.mem_cons_of_mem _ hc) h1 h2) hpost h
          rw [hlen] at this
          rw [this]
          have hne : cy * w + cx ≠ ty * w + tx :=
            hpre (cy, cx) (List.mem_cons_self _ _) hin.1 hin.2
          rw [List.getElem?_set_ne hne]
        · cases h
      · have := ih post (i + 1) res out
          (fun c hc h1 h2 => hpre c (List.mem_cons_of_mem _ hc) h1 h2) hpost h
        rw [hlen] at this
        rw [this]
    · have := ih post (i + 1) res out
        (fun c hc h1 h2 => hpre c (List.mem_cons_of_mem _ hc) h1 h2) hpost h
      rw [hlen] at this
      rw [this]

lemma dest_lt (w ht cy cx : Nat) (hcx : cx < w) (hcy : cy < ht) : cy * w + cx < w * ht := by
  have h1 : (cy + 1) * w ≤ ht * w := Nat.mul_le_mul_right w (by omega)
  rw [Nat.succ_mul] at h1
  rw [Nat.mul_comm w ht]
  obtain ⟨p, hp⟩ : ∃ p, cy * w = p := ⟨_, rfl⟩
  obtain ⟨q, hq⟩ : ∃ q, ht * w = q := ⟨_, rfl⟩
  rw [hp, hq] at h1 ⊢
  omega

lemma dest_inj (w ty tx cy cx : Nat) (hx : tx < w) (hcx : cx < w)
    (h : cy * w + cx = ty * w + tx) : cy = ty ∧ cx = tx := by
  have key : cy = ty := by
    by_contra hne
    rcases Nat.lt_or_ge cy ty with hlt | hge
    · have hle : (cy + 1) * w ≤ ty * w := Nat.mul_le_mul_right w (by omega)
      rw [Nat.succ_mul] at hle
      obtain ⟨p, hp⟩ : ∃ p, cy * w = p := ⟨_, rfl⟩
      obtain ⟨q, hq⟩ : ∃ q, ty * w = q := ⟨_, rfl⟩
      rw [hp, hq] at hle h
      omega
    · have hgt : ty + 1 ≤ cy := by omega
      have hle : (ty + 1) * w ≤ cy * w := Nat.mul_le_mul_right w hgt
      rw [Nat.succ_mul] at hle
      obtain ⟨p, hp⟩ : ∃ p, cy * w = p := ⟨_, rfl⟩
      obtain ⟨q, hq⟩ : ∃ q, ty * w = q := ⟨_, rfl⟩
      rw [hp, hq] at hle h
      omega
  refine ⟨key, ?_⟩
  subst key
  obtain ⟨p, hp⟩ : ∃ p, cy * w = p := ⟨_, rfl⟩
  rw [hp] at h
  omega

lemma cellOf_cursor (w tx ty : Nat) (hx : tx < w) :
    swizzleCellOf w (swizzleCursorIndex w tx ty) = (ty, tx) := by
  unfold swizzleCellOf swizzleCursorIndex
  obtain ⟨t, ht⟩ : ∃ t, (w + 15) / 16 = t := ⟨_, rfl⟩
  rw [ht]
  have ht0 : 0 < t := by omega
  have hct : tx / 16 < t := by omega
  obtain ⟨u, hu⟩ : ∃ u, ty / 8 * t = u := ⟨_, rfl⟩
  rw [hu]
  have h128 : ((u + tx / 16) * 128 + ty % 8 * 16 + tx % 16) / 128 = u + tx / 16 := by omega
  have h128m : ((u + tx / 16) * 128 + ty % 8 * 16 + tx % 16) % 128 = ty % 8 * 16 + tx % 16 := by
    omega
  have h16 : ((u + tx / 16) * 128 + ty % 8 * 16 + tx % 16) % 16 = tx % 16 := by omega
  rw [h128, h128m, h16]
  have hdiv : (u + tx / 16) / t = ty / 8 := by
    rw [← hu, Nat.mul_comm (ty / 8) t, Nat.mul_add_div ht0, Nat.div_eq_of_lt hct, Nat.add_zero]
  have hmod : (u + tx / 16) % t = tx / 16 := by
    rw [← hu, Nat.mul_comm (ty / 8) t, Nat.mul_add_mod, Nat.mod_eq_of_lt hct]
  rw [hdiv, hmod]
  have e1 : ty % 8 * 16 + tx % 16 ≥ 0 := by omega
  have e2 : (ty % 8 * 16 + tx % 16) / 16 = ty % 8 := by omega
  have e3 : 8 * (ty / 8) + ty % 8 = ty := by omega
  have e4 : 16 * (tx / 16) + tx % 16 = tx := by omega
  rw [e2, e3, e4]

lemma cursor_eq_of_cellOf (w n ty tx : Nat) (h : swizzleCellOf w n = (ty, tx)) :
    n = swizzleCursorIndex w tx ty := by
  unfold swizzleCellOf at h
  injection h with hy hx
  subst hy
  subst hx
  unfold swizzleCursorIndex
  obtain ⟨t, ht⟩ : ∃ t, (w + 15) / 16 = t := ⟨_, rfl⟩
  rw [ht]
  obtain ⟨v, hv⟩ : ∃ v, n / 128 / t = v := ⟨_, rfl⟩
  obtain ⟨m, hm⟩ : ∃ m, n / 128 % t = m := ⟨_, rfl⟩
  have hdm : t * v + m = n / 128 := by
    rw [← hv, ← hm]
    exact Nat.div_add_mod (n / 128) t
  rw [hv, hm]
  have h1 : (8 * v + n % 128 / 16) / 8 = v := by omega
  have h2 : (8 * v + n % 128 / 16) % 8 = n % 128 / 16 := by omega
  have h3 : (16 * m + n % 16) / 16 = m := by omega
  have h4 : (16 * m + n % 16) % 16 = n % 16 := by omega
  rw [h1, h2, h3, h4]
  obtain ⟨u, hu⟩ : ∃ u, v * t = u := ⟨_, rfl⟩
  rw [hu]
  have hut : u + m = n / 128 := by
    rw [← hu, Nat.mul_comm v t]
    exact hdm
  clear hdm hv hm hu ht
  omega

lemma cursor_lt (w h2 tx ty : Nat) (hx : tx < w) (hy : ty < h2) :
    swizzleCursorIndex w tx ty < ((h2 + 7) / 8) * (((w + 15) / 16) * 128) := by
  unfold swizzleCursorIndex
  obtain ⟨t, ht⟩ : ∃ t, (w + 15) / 16 = t := ⟨_, rfl⟩
  obtain ⟨s, hs⟩ : ∃ s, (h2 + 7) / 8 = s := ⟨_, rfl⟩
  rw [ht, hs]
  have hct : tx / 16 < t := by omega
  have has : ty / 8 < s := by omega
  obtain ⟨a, ha⟩ : ∃ a, ty / 8 = a := ⟨_, rfl⟩
  obtain ⟨c, hc⟩ : ∃ c, tx / 16 = c := ⟨_, rfl⟩
  rw [ha] at has
  rw [hc] at hct
  rw [ha, hc]
  have hmul : s * (t * 128) = s * t * 128 := by ring
  rw [hmul]
  have h1 : a * t + c + 1 ≤ s * t := by
    have h1a : a * t + t ≤ s * t := by
      have := Nat.mul_le_mul_right t (by omega : a + 1 ≤ s)
      rw [Nat.succ_mul] at this
      exact this
    omega
  obtain ⟨p, hp⟩ : ∃ p, a * t = p := ⟨_, rfl⟩
  obtain ⟨q, hq⟩ : ∃ q, s * t = q := ⟨_, rfl⟩
  rw [hp, hq] at h1
  rw [hp, hq]
  omega

lemma range_split (N n0 : Nat) (h : n0 < N) :
    List.range N = List.range n0 ++ n0 :: (List.range (N - n0 - 1)).map (fun j => n0 + 1 + j) := by
  have h1 : N = n0 + (N - n0 - 1 + 1) := by omega
  rw [h1, List.range_add, List.range_succ_eq_map, List.map_cons, List.map_map]
  have h2 : n0 + 0 = n0 := rfl
  rw [h2]
  congr 1
  congr 1
  have h3 : n0 + (N - n0 - 1 + 1) - n0 - 1 = N - n0 - 1 := by omega
  rw [h3]
  apply List.map_congr_left
  intro j _
  show n0 + (j + 1) = n0 + 1 + j
  omega

lemma unswizzle_pointwise {α : Type} [Inhabited α] (buffer : List α) (hdr : Frame.Header)
    (hlen : buffer.length = hdr.width * hdr.height) :
    ∃ out, Frame.unswizzle buffer hdr = .ok out ∧ out.length = buffer.length ∧
      ∀ tx ty, tx < hdr.width → ty < hdr.height →
        out[ty * hdr.width + tx]? =
          some ((buffer[swizzleCursorIndex hdr.width tx ty]?).getD default) := by
  have hbound : ∀ c ∈ tile_cells hdr.width hdr.height, c.2 < hdr.width → c.1 < hdr.height →
      c.1 * hdr.width + c.2 < (List.replicate buffer.length (default : α)).length := by
    intro c _ h1 h2
    rw [List.length_replicate, hlen]
    exact dest_lt hdr.width hdr.height c.1 c.2 h1 h2
  obtain ⟨out, hout⟩ := unswizzle_go_total buffer hdr.width hdr.height
    (tile_cells hdr.width hdr.height) 0 (List.replicate buffer.length default) hbound
  refine ⟨out, hout, ?_, ?_⟩
  · rw [unswizzle_go_ok_length _ _ _ _ _ _ _ hout, List.length_replicate]
  · intro tx ty hx hy
    have hsplit := range_split (((hdr.height + 7) / 8) * (((hdr.width + 15) / 16) * 128))
      (swizzleCursorIndex hdr.width tx ty) (cursor_lt _ _ _ _ hx hy)
    have hcells : tile_cells hdr.width hdr.height =
        (List.range (swizzleCursorIndex hdr.width tx ty)).map (swizzleCellOf hdr.width)
          ++ (ty, tx) ::
          ((List.range (((hdr.height + 7) / 8) * (((hdr.width + 15) / 16) * 128)
              - swizzleCursorIndex hdr.width tx ty - 1)).map
            (fun j => swizzleCellOf hdr.width (swizzleCursorIndex hdr.width tx ty + 1 + j))) := by
      rw [tile_cells_eq, hsplit, List.map_append, List.map_cons, List.map_map]
      rw [cellOf_cursor hdr.width tx ty hx]
      rfl
    rw [hcells] at hout
    have hpre : ∀ c ∈ (List.range (swizzleCursorIndex hdr.width tx ty)).map
          (swizzleCellOf hdr.width),
        c.2 < hdr.width → c.1 < hdr.height → c.1 * hdr.width + c.2 ≠ ty * hdr.width + tx := by
      intro c hc h1 h2 heq
      obtain ⟨n, hn, hfc⟩ := List.mem_map.mp hc
      obtain ⟨hcy, hcx⟩ := dest_inj hdr.width ty tx c.1 c.2 hx h1 heq
      have hne : n = swizzleCursorIndex hdr.width tx ty := by
        apply cursor_eq_of_cellOf hdr.width n ty tx
        rw [hfc]
        exact Prod.ext hcy hcx
      have := List.mem_range.mp hn
      omega
    have hpost : ∀ c ∈ (List.range (((hdr.height + 7) / 8) * (((hdr.width + 15) / 16) * 128)
            - swizzleCursorIndex hdr.width tx ty - 1)).map
          (fun j => swizzleCellOf hdr.width (swizzleCursorIndex hdr.width tx ty + 1 + j)),
        c.2 < hdr.width → c.1 < hdr.height → c.1 * hdr.width + c.2 ≠ ty * hdr.width + tx := by
      intro c hc h1 h2 heq
      obtain ⟨j, hj, hfc⟩ := List.mem_map.mp hc
      obtain ⟨hcy, hcx⟩ := dest_inj hdr.width ty tx c.1 c.2 hx h1 heq
      have hne : swizzleCursorIndex hdr.width tx ty + 1 + j =
          swizzleCursorIndex hdr.width tx ty := by
        apply cursor_eq_of_cellOf hdr.width _ ty tx
        rw [hfc]
        exact Prod.ext hcy hcx
      omega
    have hw := unswizzle_go_write buffer hdr.width hdr.height ty tx hx hy
      ((List.range (swizzleCursorIndex hdr.width tx ty)).map (swizzleCellOf hdr.width))
      ((List.range (((hdr.height + 7) / 8) * (((hdr.width + 15) / 16) * 128)
          - swizzleCursorIndex hdr.width tx ty - 1)).map
        (fun j => swizzleCellOf hdr.width (swizzleCursorIndex hdr.width tx ty + 1 + j)))
      0 (List.replicate buffer.length default) out hpre hpost hout
    rw [List.length_map, List.length_range] at hw
    have hzero : 0 + swizzleCursorIndex hdr.width tx ty = swizzleCursorIndex hdr.width tx ty := by
      omega
    rw [hzero] at hw
    cases hb : buffer[swizzleCursorIndex hdr.width tx ty]? with
    | some v =>
      rw [hb] at hw
      exact hw
    | none =>
      rw [hb] at hw
      have hrep : (List.replicate buffer.length (default : α))[ty * hdr.width + tx]? =
          some default := by
        rw [List.getElem?_replicate, if_pos]
        rw [hlen]
        exact dest_lt hdr.width hdr.height ty tx hx hy
      exact hw.trans hrep

/-- The element stream shaped by Frame::read_data before the swizzle
dispatch, frame.rs lines 136-148: for bpp = 4 every payload byte is
expanded to two indices (with the source's precedence slip, low nibble
twice), otherwise the payload slice itself. -/
def shaped_data (hdr : Frame.Header) (slice : List Nat) : List Nat :=
  if hdr.bpp = 4 then
    slice.flatMap (fun index_pair => [index_pair &&& (0xF0 >>> 4), index_pair &&& 0xF])
  else slice

lemma read_data_unfold (buffer : List Nat) (offset : Nat) (hdr : Frame.Header)
    (slice : List Nat) (o1 : Nat)
    (hs : get_slice buffer offset hdr.image_size = some (slice, o1)) :
    Frame.read_data buffer offset hdr =
      (if hdr.palette_size > 0 then
        if hdr.gs_tex_0 &&& (1 <<< 55) ≠ 0 then
          (Frame.unswizzle (shaped_data hdr slice) hdr).map
            (fun raw => (DataKind.Indices raw, o1))
        else .ok (DataKind.Indices (shaped_data hdr slice), o1)
      else
        match Frame.read_colors (shaped_data hdr slice) (hdr.bpp / 8) with
        | .ok colors =>
            if hdr.gs_tex_0 &&& (1 <<< 55) ≠ 0 then
              (Frame.unswizzle colors hdr).map (fun raw => (DataKind.Pixels raw, o1))
            else .ok (DataKind.Pixels colors, o1)
        | .err e => .err e
        | .panic => .panic) := by
  simp only [Frame.read_data, shaped_data]
  rw [hs]

/-- **C2.**  Tile deinterleave of the decoded element stream.  First, with
the destination sized as width * height, Frame::unswizzle succeeds with a
same-length output whose entry at destination index ty * width + tx - for
every in-frame cell tx < width, ty < height - is the source element at the
running cursor swizzleCursorIndex width tx ty: tiles of 16 x 8 cells are
walked in row-major order and the cursor advances once per
(tile_y, tile_x) cell whether or not a write occurs; when the cursor runs
past the end of the source the write is silently skipped (no error) and
the destination entry keeps the default element.  Second, Frame::read_data
applies this unswizzle to the shaped element stream (index bytes when a
palette is present, decoded pixels otherwise) exactly when bit 55 of
gs_tex_0 is set, and leaves the stream unchanged in scan-line order when
that bit is clear. -/
theorem c2_unswizzle_permutation :
    (∀ (α : Type) [Inhabited α] (buffer : List α) (hdr : Frame.Header),
        buffer.length = hdr.width * hdr.height →
        ∃ out, Frame.unswizzle buffer hdr = .ok out ∧
          out.length = buffer.length ∧
          ∀ tx ty, tx < hdr.width → ty < hdr.height →
            out[ty * hdr.width + tx]? =
              some ((buffer[swizzleCursorIndex hdr.width tx ty]?).getD default))
    ∧ (∀ (buffer : List Nat) (offset : Nat) (hdr : Frame.Header) (slice : List Nat) (o1 : Nat),
        get_slice buffer offset hdr.image_size = some (slice, o1) →
        (hdr.palette_size > 0 → hdr.gs_tex_0 &&& (1 <<< 55) ≠ 0 →
            Frame.read_data buffer offset hdr =
              (Frame.unswizzle (shaped_data hdr slice) hdr).map
                (fun raw => (DataKind.Indices raw, o1))) ∧
        (hdr.palette_size > 0 → hdr.gs_tex_0 &&& (1 <<< 55) = 0 →
            Frame.read_data buffer offset hdr =
              .ok (DataKind.Indices (shaped_data hdr slice), o1)) ∧
        (∀ colors, hdr.palette_size = 0 →
            Frame.read_colors (shaped_data hdr slice) (hdr.bpp / 8) = .ok colors →
            (hdr.gs_tex_0 &&& (1 <<< 55) ≠ 0 →
              Frame.read_data buffer offset hdr =
                (Frame.unswizzle colors hdr).map (fun raw => (DataKind.Pixels raw, o1))) ∧
            (hdr.gs_tex_0 &&& (1 <<< 55) = 0 →
              Frame.read_data buffer offset hdr = .ok (DataKind.Pixels colors, o1)))) := by
  constructor
  · intro α inst buffer hdr hlen
    exact unswizzle_pointwise buffer hdr hlen
  · intro buffer offset hdr slice o1 hs
    refine ⟨?_, ?_, ?_⟩
    · intro hp hbit
      rw [read_data_unfold buffer offset hdr slice o1 hs, if_pos hp, if_pos hbit]
    · intro hp hbit
      rw [read_data_unfold buffer offset hdr slice o1 hs, if_pos hp,
        if_neg (fun hc => hc hbit)]
    · intro colors hp hc
      have hnp : ¬ hdr.palette_size > 0 := by omega
      rw [read_data_unfold buffer offset hdr slice o1 hs, if_neg hnp, hc]
      constructor
      · intro hbit
        show (if hdr.gs_tex_0 &&& (1 <<< 55) ≠ 0 then
            (Frame.unswizzle colors hdr).map (fun raw => (DataKind.Pixels raw, o1))
          else .ok (DataKind.Pixels colors, o1)) =
          (Frame.unswizzle colors hdr).map (fun raw => (DataKind.Pixels raw, o1))
        rw [if_pos hbit]
      · intro hbit
        show (if hdr.gs_tex_0 &&& (1 <<< 55) ≠ 0 then
            (Frame.unswizzle colors hdr).map (fun raw => (DataKind.Pixels raw, o1))
          else .ok (DataKind.Pixels colors, o1)) =
          .ok (DataKind.Pixels colors, o1)
        rw [if_neg (fun hcon => hcon hbit)]

/-- Concrete 4 x 2, 8-bpp frame header exercising the unswizzle
characterization at a small input. -/
def c2hdr : Frame.Header :=
  { total_size := 0, palette_size := 0, image_size := 8, header_size := 48,
    color_entry_count := 0, paletted := 0, mipmap_count := 0, clut_format := 0,
    bpp := 8, width := 4, height := 2, gs_regs := 0, gs_tex_clut := 0,
    gs_tex_0 := 0, gs_tex_1 := 0, user_data := [] }

theorem c2_witness :
    ([10, 11, 12, 13, 14, 15, 16, 17] : List Nat).length = c2hdr.width * c2hdr.height ∧
    ∃ out, Frame.unswizzle ([10, 11, 12, 13, 14, 15, 16, 17] : List Nat) c2hdr = .ok out ∧
      out.length = ([10, 11, 12, 13, 14, 15, 16, 17] : List Nat).length ∧
      ∀ tx ty, tx < c2hdr.width → ty < c2hdr.height →
        out[ty * c2hdr.width + tx]? =
          some ((([10, 11, 12, 13, 14, 15, 16, 17] :
            List Nat)[swizzleCursorIndex c2hdr.width tx ty]?).getD default) :=
  ⟨by decide,
    c2_unswizzle_permutation.1 Nat [10, 11, 12, 13, 14, 15, 16, 17] c2hdr (by decide)⟩
